import Mathlib

/-!
Verification development for the caltib Tibetan-calendar library.

The definitions below are a shallow embedding of the Python sources under
src/caltib.  Machine integers are modelled as Lean Int (Python ints are
unbounded), exact fractions as Lean Rat, Python floor division and modulo
as Int.ediv and Int.emod (which agree with Python semantics for positive
divisors), and fallible constructors or methods as Except values.
-/

/-- Python floor division a // b for integers (b positive in all uses,
where Lean's Int division agrees with Python's floor division). -/
def pydiv (a b : Int) : Int := a / b

/-- Python modulo a % b for integers (b positive in all uses, where Lean's
Int emod agrees with Python's modulo). -/
def pymod (a b : Int) : Int := a % b

/-- Helper amod12 from engines/rational_month.py: arithmetic mod giving 1..12. -/
def amod12 (x : Int) : Int := pymod (x - 1) 12 + 1

/-- Month-layer parameter record from engines/rational_month.py
(RationalMonthParams).  leap_labeling is the Python string selector. -/
structure RationalMonthParams where
  Y0 : Int
  M0 : Int
  P : Int
  Q : Int
  beta_star : Int
  tau : Int
  leap_labeling : String
deriving Repr, DecidableEq

/-- Validation performed by RationalMonthParams.__post_init__. -/
def RationalMonthParams.valid (p : RationalMonthParams) : Prop :=
  0 < p.P ∧ 0 < p.Q ∧ p.P < p.Q ∧ (1 ≤ p.M0 ∧ p.M0 ≤ 12) ∧
    (0 ≤ p.tau ∧ p.tau < p.P) ∧
    (p.leap_labeling = "first_is_leap" ∨ p.leap_labeling = "second_is_leap")

instance (p : RationalMonthParams) : Decidable p.valid := by
  unfold RationalMonthParams.valid; infer_instance

/-- Property ell = Q - P (number of leap months per P months). -/
def RationalMonthParams.ell (p : RationalMonthParams) : Int := p.Q - p.P

/-- Property gamma_shift = (P - tau) mod P. -/
def RationalMonthParams.gamma_shift (p : RationalMonthParams) : Int :=
  pymod (p.P - p.tau) p.P

/-- Property beta_int = beta_star + gamma_shift. -/
def RationalMonthParams.beta_int (p : RationalMonthParams) : Int :=
  p.beta_star + p.gamma_shift

/-- Property trigger_set = tuple((tau + k) % P for k in range(ell)). -/
def RationalMonthParams.trigger_set (p : RationalMonthParams) : List Int :=
  (List.range p.ell.toNat).map (fun k : ℕ => pymod (p.tau + (k : Int)) p.P)

/-- RationalMonthEngine.mstar: M* = 12*(Y - Y0) + (M - M0). -/
def mstar (p : RationalMonthParams) (Y M : Int) : Int :=
  12 * (Y - p.Y0) + (M - p.M0)

/-- RationalMonthEngine.intercalation_index: I = (ell*M* + beta_star) mod P. -/
def intercalation_index (p : RationalMonthParams) (Y M : Int) : Int :=
  pymod (p.ell * mstar p Y M + p.beta_star) p.P

/-- RationalMonthEngine.intercalation_index_internal:
I_int = (ell*M* + beta_int) mod P. -/
def intercalation_index_internal (p : RationalMonthParams) (Y M : Int) : Int :=
  pymod (p.ell * mstar p Y M + p.beta_int) p.P

/-- RationalMonthEngine.is_trigger_label: trigger iff I_int < ell. -/
def is_trigger_label (p : RationalMonthParams) (Y M : Int) : Bool :=
  intercalation_index_internal p Y M < p.ell

/-- RationalMonthEngine.n_plus: n_+ = floor((Q*M* + beta_int)/P). -/
def n_plus (p : RationalMonthParams) (Y M : Int) : Int :=
  pydiv (p.Q * mstar p Y M + p.beta_int) p.P

/-- RationalMonthEngine.true_month.  The ValueError branch for a leap request
on a non-trigger label is modelled as Except.error. -/
def true_month (p : RationalMonthParams) (Y M : Int) (is_leap_month : Bool) :
    Except String Int :=
  let nplus := n_plus p Y M
  if ¬ is_trigger_label p Y M then
    if is_leap_month then .error "not trigger, cannot be leap"
    else .ok nplus
  else
    let nminus := nplus - 1
    if p.leap_labeling = "first_is_leap" then
      .ok (if is_leap_month then nminus else nplus)
    else
      .ok (if is_leap_month then nplus else nminus)

/-- RationalMonthEngine.mstar_from_true_month:
M*(n) = floor((P*n - beta_int - 1)/Q) + 1. -/
def mstar_from_true_month (p : RationalMonthParams) (n : Int) : Int :=
  pydiv (p.P * n - p.beta_int - 1) p.Q + 1

/-- RationalMonthEngine.x_from_true_month: x = M*(n) + M0. -/
def x_from_true_month (p : RationalMonthParams) (n : Int) : Int :=
  mstar_from_true_month p n + p.M0

/-- RationalMonthEngine.label_from_true_month: decode (Y, M, is_leap). -/
def label_from_true_month (p : RationalMonthParams) (n : Int) :
    Int × Int × Bool :=
  let x := x_from_true_month p n
  let M := amod12 x
  let Y := p.Y0 + pydiv (x - M) 12
  let x_next := x_from_true_month p (n + 1)
  let x_prev := x_from_true_month p (n - 1)
  let is_leap : Bool :=
    if x = x_next then decide (p.leap_labeling = "first_is_leap")
    else if x = x_prev then decide (p.leap_labeling = "second_is_leap")
    else false
  (Y, M, is_leap)

/-!
Claim C3: the internal trigger test agrees with membership of the external
intercalation index in the trigger set.
-/

lemma pymod_nonneg (a b : Int) (hb : 0 < b) : 0 ≤ pymod a b :=
  Int.emod_nonneg a (by omega)

lemma pymod_lt (a b : Int) (hb : 0 < b) : pymod a b < b :=
  Int.emod_lt_of_pos a hb

/-- When 0 ≤ tau < P, the shift gamma = (P - tau) mod P satisfies
tau + gamma ∈ {0, P}. -/
lemma tau_add_gamma_cases (P tau : Int) (hP : 0 < P) (h0 : 0 ≤ tau)
    (h1 : tau < P) : tau + (P - tau) % P = 0 ∨ tau + (P - tau) % P = P := by
  rcases eq_or_lt_of_le h0 with h | h
  · left
    rw [← h, sub_zero, Int.emod_self]
    ring
  · right
    rw [Int.emod_eq_of_lt (by omega) (by omega)]
    ring

/-- Adding a quantity that is 0 or P inside an emod by P changes nothing. -/
lemma emod_add_absorb (P s w : Int) (h : s = 0 ∨ s = P) :
    (w + s) % P = w % P := by
  rcases h with h | h
  · rw [h, add_zero]
  · rw [h, show w + P = w + P * 1 by ring, Int.add_mul_emod_self_left]

/-- Core arithmetic fact behind C3, stated over plain integers:
(z + gamma) mod P < ell iff z mod P lies in the contiguous block of
length ell starting at tau, where gamma = (P - tau) mod P. -/
lemma trigger_core (P ell tau z : Int) (hP : 0 < P) (hell : 0 < ell)
    (htau0 : 0 ≤ tau) (htauP : tau < P) :
    (z + (P - tau) % P) % P < ell ↔
      ∃ k : ℕ, (k : Int) < ell ∧ (tau + (k : Int)) % P = z % P := by
  have habs := tau_add_gamma_cases P tau hP htau0 htauP
  constructor
  · intro hlt
    have h0 : 0 ≤ (z + (P - tau) % P) % P := Int.emod_nonneg _ (by omega)
    refine ⟨((z + (P - tau) % P) % P).toNat, by omega, ?_⟩
    rw [Int.toNat_of_nonneg h0]
    calc (tau + (z + (P - tau) % P) % P) % P
        = (tau + (z + (P - tau) % P)) % P := by
          conv_rhs => rw [Int.add_emod]
          rw [Int.add_emod tau ((z + (P - tau) % P) % P),
            Int.emod_emod_of_dvd _ dvd_rfl]
      _ = (z + (tau + (P - tau) % P)) % P := by ring_nf
      _ = z % P := emod_add_absorb P _ z habs
  · rintro ⟨k, hk, hka⟩
    have e1 : (z + (P - tau) % P) % P
        = (z % P + ((P - tau) % P) % P) % P := by rw [← Int.add_emod]
    have e2 : (z % P + ((P - tau) % P) % P) % P
        = ((tau + (k : Int)) % P + ((P - tau) % P) % P) % P := by rw [hka]
    have e3 : ((tau + (k : Int)) % P + ((P - tau) % P) % P) % P
        = ((k : Int) + (tau + (P - tau) % P)) % P := by
      rw [← Int.add_emod]
      ring_nf
    have e4 : ((k : Int) + (tau + (P - tau) % P)) % P = (k : Int) % P :=
      emod_add_absorb P _ _ habs
    have e5 : (k : Int) % P ≤ (k : Int) := by
      rcases lt_or_le (k : Int) P with h | h
      · rw [Int.emod_eq_of_lt (by positivity) h]
      · have := Int.emod_lt_of_pos (k : Int) hP
        omega
    rw [e1, e2, e3, e4]
    omega

lemma mem_trigger_set_iff (p : RationalMonthParams) (hell : 0 < p.ell)
    (a : Int) :
    a ∈ p.trigger_set ↔
      ∃ k : ℕ, (k : Int) < p.ell ∧ pymod (p.tau + (k : Int)) p.P = a := by
  unfold RationalMonthParams.trigger_set
  rw [List.mem_map]
  constructor
  · rintro ⟨k, hk, hka⟩
    exact ⟨k, by have := List.mem_range.mp hk; omega, hka⟩
  · rintro ⟨k, hk, hka⟩
    exact ⟨k, List.mem_range.mpr (by omega), hka⟩

/-- C3: for every valid month-parameter record and every label (Y, M), the
internal trigger test (ell*Mstar + beta_int) mod P < ell holds iff the
external index (ell*Mstar + beta_star) mod P lies in the trigger set. -/
theorem c3_trigger_test_iff_member (p : RationalMonthParams)
    (hP : 0 < p.P) (hPQ : p.P < p.Q) (htau0 : 0 ≤ p.tau) (htauP : p.tau < p.P)
    (Y M : Int) :
    is_trigger_label p Y M = true ↔
      intercalation_index p Y M ∈ p.trigger_set := by
  have hell : 0 < p.ell := by unfold RationalMonthParams.ell; omega
  have core := trigger_core p.P p.ell p.tau (p.ell * mstar p Y M + p.beta_star)
    hP hell htau0 htauP
  have eint : intercalation_index_internal p Y M
      = (p.ell * mstar p Y M + p.beta_star + (p.P - p.tau) % p.P) % p.P := by
    unfold intercalation_index_internal RationalMonthParams.beta_int
      RationalMonthParams.gamma_shift pymod
    ring_nf
  have eext : ∀ a : Int, (pymod (p.tau + a) p.P
        = intercalation_index p Y M)
      ↔ ((p.tau + a) % p.P = (p.ell * mstar p Y M + p.beta_star) % p.P) := by
    intro a
    unfold intercalation_index pymod
    exact Iff.rfl
  rw [mem_trigger_set_iff p hell]
  unfold is_trigger_label
  rw [decide_eq_true_eq, eint]
  constructor
  · intro h
    obtain ⟨k, hk, hka⟩ := core.mp h
    exact ⟨k, hk, (eext (k : Int)).mpr hka⟩
  · rintro ⟨k, hk, hka⟩
    exact core.mpr ⟨k, hk, (eext (k : Int)).mp hka⟩

/-- Phugpa month parameters (specs.py: Y0=1987, M0=3, P=65, Q=67,
beta_star=0, tau=48, first_is_leap), used as concrete witnesses. -/
def phugpaMonthParams : RationalMonthParams :=
  ⟨1987, 3, 65, 67, 0, 48, "first_is_leap"⟩

/-- Witness for C3 at the Phugpa month parameters (P=65, Q=67, tau=48). -/
theorem c3_witness :
    (0 < (65:Int) ∧ (65:Int) < 67 ∧ (0:Int) ≤ 48 ∧ (48:Int) < 65) ∧
      (is_trigger_label ⟨1987, 3, 65, 67, 0, 48, "first_is_leap"⟩ 1990 5 = true ↔
        intercalation_index ⟨1987, 3, 65, 67, 0, 48, "first_is_leap"⟩ 1990 5 ∈
          RationalMonthParams.trigger_set ⟨1987, 3, 65, 67, 0, 48, "first_is_leap"⟩) :=
  ⟨by norm_num,
    c3_trigger_test_iff_member ⟨1987, 3, 65, 67, 0, 48, "first_is_leap"⟩
      (by norm_num) (by norm_num) (by norm_num) (by norm_num) 1990 5⟩

/-!
Claim C4: month-layer inverse identity.  The forward map n_plus and the
right-end inverse mstar_from_true_month form a Galois connection, from
which the identity follows when Q < 2P.  A counterexample below shows the
identity can fail for parameter records that pass the __post_init__
validation but have Q >= 2P.
-/

lemma month_galois_connection (p : RationalMonthParams)
    (hP : 0 < p.P) (hQ : 0 < p.Q) (n m : Int) :
    mstar_from_true_month p n ≤ m ↔ n ≤ pydiv (p.Q * m + p.beta_int) p.P := by
  unfold mstar_from_true_month pydiv
  rw [Int.le_ediv_iff_mul_le hP]
  constructor
  · intro h
    have h2 : (p.P * n - p.beta_int - 1) / p.Q < m := by
      have := Int.add_one_le_iff.mp h
      omega
    rw [Int.ediv_lt_iff_lt_mul hQ] at h2
    have h3 := Int.lt_iff_add_one_le.mp h2
    linarith [mul_comm p.P n, mul_comm m p.Q]
  · intro h
    have h2 : p.P * n - p.beta_int - 1 < m * p.Q := by
      linarith [mul_comm p.P n, mul_comm m p.Q]
    have h3 := (Int.ediv_lt_iff_lt_mul hQ).mpr h2
    have := Int.add_one_le_iff.mpr h3
    omega

lemma month_fiber (p : RationalMonthParams)
    (hP : 0 < p.P) (hQ : 0 < p.Q) (n m : Int) :
    mstar_from_true_month p n = m ↔
      (pydiv (p.Q * (m - 1) + p.beta_int) p.P < n ∧
        n ≤ pydiv (p.Q * m + p.beta_int) p.P) := by
  constructor
  · rintro rfl
    refine ⟨?_, (month_galois_connection p hP hQ n _).mp le_rfl⟩
    by_contra hcon
    push_neg at hcon
    have := (month_galois_connection p hP hQ n (mstar_from_true_month p n - 1)).mpr hcon
    omega
  · rintro ⟨h1, h2⟩
    have hle : mstar_from_true_month p n ≤ m :=
      (month_galois_connection p hP hQ n m).mpr h2
    have hge : ¬ mstar_from_true_month p n ≤ m - 1 := by
      intro hcon
      have := (month_galois_connection p hP hQ n (m - 1)).mp hcon
      omega
    omega

/-- Integer division of b*q + r by b with 0 ≤ r < b gives q. -/
lemma ediv_mul_add (b q r : Int) (hb : 0 < b) (h0 : 0 ≤ r) (h1 : r < b) :
    (b * q + r) / b = q := by
  rw [show b * q + r = r + b * q by ring, Int.add_mul_ediv_left r q (by omega),
    Int.ediv_eq_zero_of_lt h0 h1]
  ring

lemma month_gap (p : RationalMonthParams)
    (hP : 0 < p.P) (hPQ : p.P < p.Q) (hQ2 : p.Q < 2 * p.P) (m : Int) :
    pydiv (p.Q * (m - 1) + p.beta_int) p.P + 1 ≤
        pydiv (p.Q * m + p.beta_int) p.P ∧
      pydiv (p.Q * m + p.beta_int) p.P ≤
        pydiv (p.Q * (m - 1) + p.beta_int) p.P + 2 := by
  unfold pydiv
  have hprev : p.Q * (m - 1) + p.beta_int = (p.Q * m + p.beta_int) - p.Q := by
    ring
  rw [hprev]
  set a := p.Q * m + p.beta_int with ha
  constructor
  · have m1 : (a - p.Q) / p.P ≤ (a - p.P) / p.P :=
      Int.ediv_le_ediv hP (by omega)
    have m2 : (a - p.P) / p.P = a / p.P - 1 := by
      rw [show a - p.P = a + p.P * (-1) by ring,
        Int.add_mul_ediv_left a (-1) (by omega)]
      ring
    omega
  · have m1 : a / p.P ≤ ((a - p.Q) + p.P * 2) / p.P :=
      Int.ediv_le_ediv hP (by omega)
    have m2 : ((a - p.Q) + p.P * 2) / p.P = (a - p.Q) / p.P + 2 :=
      Int.add_mul_ediv_left (a - p.Q) 2 (by omega)
    omega

/-- The internal trigger inequality holds exactly when the label carries two
lunations, i.e. the forward index jumps by 2 at m. -/
lemma month_trig_iff_gap (p : RationalMonthParams)
    (hP : 0 < p.P) (hPQ : p.P < p.Q) (hQ2 : p.Q < 2 * p.P) (m : Int) :
    (pymod (p.ell * m + p.beta_int) p.P < p.ell ↔
      pydiv (p.Q * m + p.beta_int) p.P =
        pydiv (p.Q * (m - 1) + p.beta_int) p.P + 2) := by
  unfold pymod pydiv RationalMonthParams.ell
  set a := p.Q * m + p.beta_int with ha
  set r := a % p.P with hr
  set q := a / p.P with hq
  have hdecomp : p.P * q + r = a := Int.ediv_add_emod a p.P
  have hr0 : 0 ≤ r := Int.emod_nonneg a (by omega)
  have hrP : r < p.P := Int.emod_lt_of_pos a hP
  have hident : ((p.Q - p.P) * m + p.beta_int) % p.P = r := by
    have : a = (p.Q - p.P) * m + p.beta_int + p.P * m := by ring
    rw [hr, this, Int.add_mul_emod_self_left]
  have hprev : p.Q * (m - 1) + p.beta_int = a - p.Q := by ring
  rw [hident, hprev]
  have hellP : p.Q - p.P < p.P := by omega
  by_cases hc : r < p.Q - p.P
  · have hsub : a - (p.Q - p.P) = p.P * (q - 1) + (r - (p.Q - p.P) + p.P) := by
      have hx : p.P * (q - 1) = p.P * q - p.P := by ring
      omega
    have hdiv1 : (a - (p.Q - p.P)) / p.P = q - 1 := by
      rw [hsub]; exact ediv_mul_add p.P (q - 1) _ hP (by omega) (by omega)
    have hdiv2 : (a - p.Q) / p.P = q - 2 := by
      rw [show a - p.Q = (a - (p.Q - p.P)) + p.P * (-1) by ring,
        Int.add_mul_ediv_left _ (-1) (by omega), hdiv1]
      ring
    rw [hdiv2]
    constructor
    · intro _; omega
    · intro _; exact hc
  · push_neg at hc
    have hsub : a - (p.Q - p.P) = p.P * q + (r - (p.Q - p.P)) := by omega
    have hdiv1 : (a - (p.Q - p.P)) / p.P = q := by
      rw [hsub]; exact ediv_mul_add p.P q _ hP (by omega) (by omega)
    have hdiv2 : (a - p.Q) / p.P = q - 1 := by
      rw [show a - p.Q = (a - (p.Q - p.P)) + p.P * (-1) by ring,
        Int.add_mul_ediv_left _ (-1) (by omega), hdiv1]
      ring
    rw [hdiv2]
    constructor
    · intro h; omega
    · intro h; omega

/-- Decoding the cumulative month x = M*(n) + M0 through amod12 and the
floor division recovers exactly M*(n) as the label's mstar. -/
lemma month_decode_mstar (p : RationalMonthParams) (n : Int) :
    mstar p (p.Y0 + pydiv (x_from_true_month p n - amod12 (x_from_true_month p n)) 12)
        (amod12 (x_from_true_month p n)) = mstar_from_true_month p n := by
  unfold mstar amod12 x_from_true_month pydiv pymod
  omega

/-- C4 (amended): for every month-parameter record with 0 < P < Q < 2P and a
valid leap_labeling, decoding any lunation n with label_from_true_month and
resolving the decoded label back with true_month yields n again. -/
theorem c4_month_inverse_identity (p : RationalMonthParams)
    (hP : 0 < p.P) (hPQ : p.P < p.Q) (hQ2 : p.Q < 2 * p.P)
    (hlab : p.leap_labeling = "first_is_leap" ∨
      p.leap_labeling = "second_is_leap")
    (n : Int) :
    true_month p (label_from_true_month p n).1 (label_from_true_month p n).2.1
      (label_from_true_month p n).2.2 = Except.ok n := by
  have hQ : 0 < p.Q := by omega
  have hfib := (month_fiber p hP hQ n (mstar_from_true_month p n)).mp rfl
  have hgap := month_gap p hP hPQ hQ2 (mstar_from_true_month p n)
  have htrig := month_trig_iff_gap p hP hPQ hQ2 (mstar_from_true_month p n)
  -- characterize the two repeat tests
  have hnext : (x_from_true_month p n = x_from_true_month p (n + 1)) ↔
      n + 1 ≤ pydiv (p.Q * mstar_from_true_month p n + p.beta_int) p.P := by
    unfold x_from_true_month
    constructor
    · intro h
      have heq : mstar_from_true_month p (n + 1) = mstar_from_true_month p n := by
        omega
      exact ((month_fiber p hP hQ (n + 1) _).mp heq).2
    · intro h
      have := (month_fiber p hP hQ (n + 1) (mstar_from_true_month p n)).mpr
        ⟨by omega, h⟩
      omega
  have hprev : (x_from_true_month p n = x_from_true_month p (n - 1)) ↔
      pydiv (p.Q * (mstar_from_true_month p n - 1) + p.beta_int) p.P < n - 1 := by
    unfold x_from_true_month
    constructor
    · intro h
      have heq : mstar_from_true_month p (n - 1) = mstar_from_true_month p n := by
        omega
      exact ((month_fiber p hP hQ (n - 1) _).mp heq).1
    · intro h
      have := (month_fiber p hP hQ (n - 1) (mstar_from_true_month p n)).mpr
        ⟨h, by omega⟩
      omega
  -- the decoded label has the same mstar, hence the same trigger test and n_plus
  have hdec := month_decode_mstar p n
  have hlabel : label_from_true_month p n =
      (p.Y0 + pydiv (x_from_true_month p n - amod12 (x_from_true_month p n)) 12,
        amod12 (x_from_true_month p n),
        if x_from_true_month p n = x_from_true_month p (n + 1) then
          decide (p.leap_labeling = "first_is_leap")
        else if x_from_true_month p n = x_from_true_month p (n - 1) then
          decide (p.leap_labeling = "second_is_leap")
        else false) := by
    simp only [label_from_true_month]
  rw [hlabel]
  show true_month p _ _ _ = Except.ok n
  have hnp : n_plus p
        (p.Y0 + pydiv (x_from_true_month p n - amod12 (x_from_true_month p n)) 12)
        (amod12 (x_from_true_month p n))
      = pydiv (p.Q * mstar_from_true_month p n + p.beta_int) p.P := by
    unfold n_plus; rw [hdec]
  have htrl : is_trigger_label p
        (p.Y0 + pydiv (x_from_true_month p n - amod12 (x_from_true_month p n)) 12)
        (amod12 (x_from_true_month p n))
      = decide (pymod (p.ell * mstar_from_true_month p n + p.beta_int) p.P < p.ell) := by
    unfold is_trigger_label intercalation_index_internal; rw [hdec]
  unfold true_month
  rw [hnp, htrl]
  by_cases hgap2 : pydiv (p.Q * mstar_from_true_month p n + p.beta_int) p.P =
      pydiv (p.Q * (mstar_from_true_month p n - 1) + p.beta_int) p.P + 2
  · -- trigger case: the label carries the pair (nplus - 1, nplus)
    have htr : pymod (p.ell * mstar_from_true_month p n + p.beta_int) p.P < p.ell :=
      htrig.mpr hgap2
    rw [if_neg (by simp [htr])]
    by_cases hx : x_from_true_month p n = x_from_true_month p (n + 1)
    · -- n is first of pair: n = nplus - 1
      have hn : n + 1 ≤ pydiv (p.Q * mstar_from_true_month p n + p.beta_int) p.P :=
        hnext.mp hx
      rw [if_pos hx]
      rcases hlab with hl | hl
      · rw [if_pos hl]
        simp only [hl, decide_eq_true_eq, if_pos rfl]
        simp only [decide_eq_true_eq, reduceIte]
        congr 1
        omega
      · rw [if_neg (by rw [hl]; intro hc; exact absurd hc (by decide))]
        have hdl : decide (p.leap_labeling = "first_is_leap") = false := by
          rw [hl]; decide
        rw [hdl]
        simp only [Bool.false_eq_true, if_false]
        congr 1
        omega
    · -- n is second of pair: n = nplus
      have hxp : x_from_true_month p n = x_from_true_month p (n - 1) := by
        rw [hprev]; omega
      rw [if_neg hx, if_pos hxp]
      rcases hlab with hl | hl
      · rw [if_pos hl]
        have hdl : decide (p.leap_labeling = "second_is_leap") = false := by
          rw [hl]; decide
        rw [hdl]
        simp only [Bool.false_eq_true, if_false]
        congr 1
        omega
      · rw [if_neg (by rw [hl]; intro hc; exact absurd hc (by decide))]
        have hdl : decide (p.leap_labeling = "second_is_leap") = true := by
          rw [hl]; decide
        rw [hdl]
        simp only [if_true]
        congr 1
        omega
  · -- non-trigger case: single lunation n = nplus, no repeat
    have htr : ¬ pymod (p.ell * mstar_from_true_month p n + p.beta_int) p.P < p.ell := by
      intro hcon; exact hgap2 (htrig.mp hcon)
    have hx : ¬ x_from_true_month p n = x_from_true_month p (n + 1) := by
      rw [hnext]; omega
    have hxp : ¬ x_from_true_month p n = x_from_true_month p (n - 1) := by
      rw [hprev]; omega
    rw [if_neg hx, if_neg hxp, if_pos (by simp [htr])]
    simp only [Bool.false_eq_true, if_false]
    congr 1
    omega

/-!
OddPeriodicTable (engines/astro/sin_tables.py): quarter-wave integer table
with linear interpolation, evaluated in exact rational arithmetic.
-/

/-- Source helper _frac_part: x minus its floor (Fraction arithmetic). -/
def fracPart (x : ℚ) : ℚ := x - (⌊x⌋ : ℚ)

/-- OddPeriodicTable data: full period N in grid units and the quarter-wave
integer samples (length N/4 + 1 when valid). -/
structure OddPeriodicTable where
  N : Int
  quarter : List Int
deriving Repr, DecidableEq

/-- Validation performed by OddPeriodicTable.__post_init__. -/
def OddPeriodicTable.validN (t : OddPeriodicTable) : Prop :=
  0 < t.N ∧ pymod t.N 4 = 0 ∧ (t.quarter.length : Int) = pydiv t.N 4 + 1

instance (t : OddPeriodicTable) : Decidable t.validN := by
  unfold OddPeriodicTable.validN; infer_instance

/-- Mirror-and-interpolate part of eval_u, acting on an argument already
reduced into [0, N/2] (lines mirroring into [0, N/4] and interpolating). -/
def evalUCore (t : OddPeriodicTable) (u1 : ℚ) : ℚ :=
  let u2 := if u1 > (t.N : ℚ) / 4 then (t.N : ℚ) / 2 - u1 else u1
  let i : Int := ⌊u2⌋
  if pydiv t.N 4 ≤ i then ((t.quarter.getD (pydiv t.N 4).toNat 0 : Int) : ℚ)
  else
    let tf := u2 - (i : ℚ)
    ((t.quarter.getD i.toNat 0 : Int) : ℚ) +
      tf * (((t.quarter.getD (i.toNat + 1) 0 : Int) : ℚ) -
        ((t.quarter.getD i.toNat 0 : Int) : ℚ))

/-- Odd-symmetry step of eval_u: sign flip about N/2, then the core. -/
def evalUAt (t : OddPeriodicTable) (u0 : ℚ) : ℚ :=
  if u0 > (t.N : ℚ) / 2 then -evalUCore t ((t.N : ℚ) - u0) else evalUCore t u0

/-- OddPeriodicTable.eval_u: reduce u mod N into [0, N) (including the
defensive never-taken negative branch of the source), then evaluate. -/
def evalU (t : OddPeriodicTable) (u : ℚ) : ℚ :=
  let k : Int := pydiv ⌊u⌋ t.N
  let u0 : ℚ := u - (t.N : ℚ) * (k : ℚ)
  let u0' : ℚ :=
    if u0 < 0 then u0 + (t.N : ℚ) * ((pydiv ⌊-u0⌋ t.N + 1 : Int) : ℚ) else u0
  evalUAt t u0'

/-- OddPeriodicTable.eval_turn: reduce the phase mod 1 turn, scale by N. -/
def evalTurn (t : OddPeriodicTable) (x_turn : ℚ) : ℚ :=
  evalU t (fracPart x_turn * (t.N : ℚ))

/-- Binary-search loop of asin_turn over the quarter table. -/
def asinSearch (q : List Int) (y : ℚ) (lo hi : ℕ) : ℕ :=
  if h : lo + 1 < hi then
    let mid := (lo + hi) / 2
    if ((q.getD mid 0 : Int) : ℚ) ≤ y then asinSearch q y mid hi
    else asinSearch q y lo mid
  else lo
termination_by hi - lo
decreasing_by
  · omega
  · omega

/-- Nonnegative branch of OddPeriodicTable.asin_turn. -/
def asinTurnNN (t : OddPeriodicTable) (y : ℚ) : ℚ :=
  let v_max : ℚ := ((t.quarter.getLastD 0 : Int) : ℚ)
  if y ≥ v_max then 1 / 4
  else
    let lo := asinSearch t.quarter y 0 (t.quarter.length - 1)
    let y0 : ℚ := ((t.quarter.getD lo 0 : Int) : ℚ)
    let y1 : ℚ := ((t.quarter.getD (lo + 1) 0 : Int) : ℚ)
    let tf := (y - y0) / (y1 - y0)
    ((lo : ℚ) + tf) / (t.N : ℚ)

/-- OddPeriodicTable.asin_turn: inverse lookup in turns, odd in y. -/
def asinTurn (t : OddPeriodicTable) (y : ℚ) : ℚ :=
  if y < 0 then -asinTurnNN t (-y) else asinTurnNN t y

/-- OddPeriodicTable.acos_turn: 1/4 - asin_turn. -/
def acosTurn (t : OddPeriodicTable) (y : ℚ) : ℚ := 1 / 4 - asinTurn t y

/-- Modelled from the spec: OddPeriodicTable.eval_normalized_turn is absent
from sin_tables.py although rational_day.py and sunrise.py call it; the spec
defines it as eval_turn scaled by 1/peak, peak being the last quarter entry. -/
def evalNormalizedTurn (t : OddPeriodicTable) (x_turn : ℚ) : ℚ :=
  evalTurn t x_turn / ((t.quarter.getLastD 0 : Int) : ℚ)

/-- Modelled from the spec: OddPeriodicTable.asin_normalized_turn is absent
from sin_tables.py although sunrise.py calls it; the spec's asin takes a
normalized value in [-1, 1], so it is asin_turn at y scaled back by peak. -/
def asinNormalizedTurn (t : OddPeriodicTable) (y : ℚ) : ℚ :=
  asinTurn t (y * ((t.quarter.getLastD 0 : Int) : ℚ))

/-- Modelled from the spec: acos_normalized_turn = 1/4 - asin_normalized_turn. -/
def acosNormalizedTurn (t : OddPeriodicTable) (y : ℚ) : ℚ :=
  1 / 4 - asinNormalizedTurn t y

/-- For an argument already in [0, N), eval_u reduces to evalUAt. -/
lemma evalU_eq_evalUAt (t : OddPeriodicTable) (hN : 0 < t.N) (u : ℚ)
    (h0 : 0 ≤ u) (h1 : u < (t.N : ℚ)) : evalU t u = evalUAt t u := by
  unfold evalU
  have hfl0 : 0 ≤ ⌊u⌋ := Int.floor_nonneg.mpr h0
  have hflN : ⌊u⌋ < t.N := by
    have := Int.floor_le_floor h1.le
    have hNf : ⌊(t.N : ℚ)⌋ = t.N := Int.floor_intCast t.N
    rcases lt_or_eq_of_le (Int.floor_le_floor h1.le) with h | h
    · omega
    · exfalso
      have : (⌊u⌋ : ℚ) ≤ u := Int.floor_le u
      rw [h, hNf] at this
      exact absurd (lt_of_le_of_lt this h1) (lt_irrefl _)
  have hk : pydiv ⌊u⌋ t.N = 0 := Int.ediv_eq_zero_of_lt hfl0 hflN
  rw [hk]
  simp only [Int.cast_zero, mul_zero, sub_zero]
  rw [if_neg (by exact not_lt.mpr h0)]

/-- Every real argument reduces: eval_u u = evalUAt at u - N*(floor u div N),
and that reduced value lies in [0, N). -/
lemma evalU_reduce (t : OddPeriodicTable) (hN : 0 < t.N) (u : ℚ) :
    evalU t u = evalUAt t (u - (t.N : ℚ) * ((pydiv ⌊u⌋ t.N : Int) : ℚ)) ∧
      0 ≤ u - (t.N : ℚ) * ((pydiv ⌊u⌋ t.N : Int) : ℚ) ∧
      u - (t.N : ℚ) * ((pydiv ⌊u⌋ t.N : Int) : ℚ) < (t.N : ℚ) := by
  have hdecomp : t.N * (pydiv ⌊u⌋ t.N) + pymod ⌊u⌋ t.N = ⌊u⌋ :=
    Int.ediv_add_emod ⌊u⌋ t.N
  have hr0 : 0 ≤ pymod ⌊u⌋ t.N := Int.emod_nonneg _ (by omega)
  have hr1 : pymod ⌊u⌋ t.N < t.N := Int.emod_lt_of_pos _ hN
  have hfle : (⌊u⌋ : ℚ) ≤ u := Int.floor_le u
  have hflt : u < (⌊u⌋ : ℚ) + 1 := Int.lt_floor_add_one u
  have hlow : 0 ≤ u - (t.N : ℚ) * ((pydiv ⌊u⌋ t.N : Int) : ℚ) := by
    have : ((t.N * pydiv ⌊u⌋ t.N : Int) : ℚ) ≤ (⌊u⌋ : ℚ) := by
      exact_mod_cast (by omega : t.N * pydiv ⌊u⌋ t.N ≤ ⌊u⌋)
    push_cast at this ⊢
    linarith
  have hhigh : u - (t.N : ℚ) * ((pydiv ⌊u⌋ t.N : Int) : ℚ) < (t.N : ℚ) := by
    have : (⌊u⌋ : ℚ) + 1 ≤ ((t.N * pydiv ⌊u⌋ t.N + t.N : Int) : ℚ) := by
      exact_mod_cast (by omega : ⌊u⌋ + 1 ≤ t.N * pydiv ⌊u⌋ t.N + t.N)
    push_cast at this ⊢
    linarith
  refine ⟨?_, hlow, hhigh⟩
  unfold evalU
  dsimp only
  rw [if_neg (by exact not_lt.mpr hlow)]

lemma getLastD_eq_getD (l : List Int) (d : Int) :
    l.getLastD d = l.getD (l.length - 1) d := by
  induction l generalizing d with
  | nil => rfl
  | cons a l ih =>
    cases l with
    | nil => rfl
    | cons b m =>
      rw [List.getLastD_cons, ih a]
      simp [List.getD_cons_succ]

lemma entries_mono (q : List Int)
    (hmono : ∀ j : ℕ, j + 1 < q.length → q.getD j 0 ≤ q.getD (j + 1) 0) :
    ∀ i j : ℕ, i ≤ j → j < q.length → q.getD i 0 ≤ q.getD j 0 := by
  intro i j hij hj
  induction j with
  | zero =>
    have : i = 0 := by omega
    subst this; exact le_refl _
  | succ k ih =>
    rcases Nat.lt_or_ge i (k + 1) with h | h
    · exact le_trans (ih (by omega) (by omega)) (hmono k hj)
    · have : i = k + 1 := by omega
      subst this; exact le_refl _

/-- Interpolation bound for the mirror-and-interpolate core: with entries
between 0 and the peak, the core lies in [0, peak] on [0, N/2]. -/
lemma evalUCore_bounds (t : OddPeriodicTable)
    (hN : 0 < t.N) (hN4 : pymod t.N 4 = 0)
    (hlen : (t.quarter.length : Int) = pydiv t.N 4 + 1)
    (hent : ∀ j : ℕ, j < t.quarter.length →
      0 ≤ t.quarter.getD j 0 ∧ t.quarter.getD j 0 ≤ t.quarter.getLastD 0)
    (u1 : ℚ) (h0 : 0 ≤ u1) (h1 : u1 ≤ (t.N : ℚ) / 2) :
    0 ≤ evalUCore t u1 ∧ evalUCore t u1 ≤ ((t.quarter.getLastD 0 : Int) : ℚ) := by
  have hn4 : t.N = 4 * pydiv t.N 4 := by
    unfold pymod pydiv at *
    omega
  have hn4pos : 1 ≤ pydiv t.N 4 := by
    unfold pydiv at *
    omega
  have hNQ : (t.N : ℚ) = 4 * ((pydiv t.N 4 : Int) : ℚ) := by
    exact_mod_cast congrArg (fun z : Int => (z : ℚ)) hn4
  have hlenpos : 2 ≤ t.quarter.length := by omega
  unfold evalUCore
  dsimp only
  set n4 := pydiv t.N 4 with hn4def
  have hu2 : 0 ≤ (if u1 > (t.N : ℚ) / 4 then (t.N : ℚ) / 2 - u1 else u1) ∧
      (if u1 > (t.N : ℚ) / 4 then (t.N : ℚ) / 2 - u1 else u1) ≤ ((n4 : Int) : ℚ) := by
    split_ifs with h
    · constructor
      · linarith
      · rw [hNQ] at h1 ⊢
        linarith
    · constructor
      · exact h0
      · push_neg at h
        rw [hNQ] at h
        linarith [h]
  set u2 := (if u1 > (t.N : ℚ) / 4 then (t.N : ℚ) / 2 - u1 else u1) with hu2def
  have hi0 : 0 ≤ ⌊u2⌋ := Int.floor_nonneg.mpr hu2.1
  have hin4 : ⌊u2⌋ ≤ n4 := by
    have := Int.floor_le_floor hu2.2
    rwa [Int.floor_intCast] at this
  have hpeak0 : 0 ≤ t.quarter.getLastD 0 := by
    have := (hent (t.quarter.length - 1) (by omega)).1
    rw [getLastD_eq_getD]
    exact this
  split_ifs with hbr
  · exact ⟨by exact_mod_cast (hent n4.toNat (by omega)).1, by
      have h2 := (hent n4.toNat (by omega)).2
      exact_mod_cast h2⟩
  · push_neg at hbr
    have hidx : ⌊u2⌋.toNat + 1 < t.quarter.length := by omega
    have hv0 := hent ⌊u2⌋.toNat (by omega)
    have hv1 := hent (⌊u2⌋.toNat + 1) (by omega)
    have htf0 : 0 ≤ u2 - (⌊u2⌋ : ℚ) := by
      have := Int.floor_le u2
      linarith
    have htf1 : u2 - (⌊u2⌋ : ℚ) ≤ 1 := by
      have := Int.lt_floor_add_one u2
      linarith
    set v0 : ℚ := ((t.quarter.getD ⌊u2⌋.toNat 0 : Int) : ℚ) with hv0def
    set v1 : ℚ := ((t.quarter.getD (⌊u2⌋.toNat + 1) 0 : Int) : ℚ) with hv1def
    set tf : ℚ := u2 - (⌊u2⌋ : ℚ) with htfdef
    have hb0 : (0 : ℚ) ≤ v0 := by rw [hv0def]; exact_mod_cast hv0.1
    have hb0p : v0 ≤ ((t.quarter.getLastD 0 : Int) : ℚ) := by
      rw [hv0def]; exact_mod_cast hv0.2
    have hb1 : (0 : ℚ) ≤ v1 := by rw [hv1def]; exact_mod_cast hv1.1
    have hb1p : v1 ≤ ((t.quarter.getLastD 0 : Int) : ℚ) := by
      rw [hv1def]; exact_mod_cast hv1.2
    rcases le_total v0 v1 with hc | hc
    · have hm0 : 0 ≤ tf * (v1 - v0) := mul_nonneg htf0 (by linarith)
      have hm1 : tf * (v1 - v0) ≤ v1 - v0 :=
        mul_le_of_le_one_left (by linarith) htf1
      constructor <;> linarith
    · have hm0 : tf * (v1 - v0) ≤ 0 := by nlinarith
      have hm1 : v1 - v0 ≤ tf * (v1 - v0) := by nlinarith
      constructor <;> linarith

/-- Bound for evalUAt on [0, N): absolute value at most the peak entry. -/
lemma evalUAt_bounds (t : OddPeriodicTable)
    (hN : 0 < t.N) (hN4 : pymod t.N 4 = 0)
    (hlen : (t.quarter.length : Int) = pydiv t.N 4 + 1)
    (hent : ∀ j : ℕ, j < t.quarter.length →
      0 ≤ t.quarter.getD j 0 ∧ t.quarter.getD j 0 ≤ t.quarter.getLastD 0)
    (u0 : ℚ) (h0 : 0 ≤ u0) (h1 : u0 < (t.N : ℚ)) :
    -((t.quarter.getLastD 0 : Int) : ℚ) ≤ evalUAt t u0 ∧
      evalUAt t u0 ≤ ((t.quarter.getLastD 0 : Int) : ℚ) := by
  unfold evalUAt
  split_ifs with h
  · have := evalUCore_bounds t hN hN4 hlen hent ((t.N : ℚ) - u0)
      (by linarith) (by linarith)
    constructor <;> linarith [this.1, this.2]
  · push_neg at h
    have := evalUCore_bounds t hN hN4 hlen hent u0 h0 (by linarith)
    constructor <;> linarith [this.1, this.2]

/-- C5: the spec-modelled eval_normalized_turn equals eval_turn scaled by the
reciprocal peak, and for every valid monotone table (entries rising from a
nonnegative first entry, as in every shipped table) its value lies in
[-1, 1] for every rational phase. -/
theorem c5_eval_normalized_turn_bounds (t : OddPeriodicTable)
    (hN : 0 < t.N) (hN4 : pymod t.N 4 = 0)
    (hlen : (t.quarter.length : Int) = pydiv t.N 4 + 1)
    (hmono : ∀ j : ℕ, j + 1 < t.quarter.length →
      t.quarter.getD j 0 ≤ t.quarter.getD (j + 1) 0)
    (hq0 : 0 ≤ t.quarter.getD 0 0) (x_turn : ℚ) :
    evalNormalizedTurn t x_turn
        = evalTurn t x_turn / ((t.quarter.getLastD 0 : Int) : ℚ) ∧
      -1 ≤ evalNormalizedTurn t x_turn ∧ evalNormalizedTurn t x_turn ≤ 1 := by
  have hlenpos : 1 ≤ t.quarter.length := by
    unfold pydiv pymod at *
    omega
  have hent : ∀ j : ℕ, j < t.quarter.length →
      0 ≤ t.quarter.getD j 0 ∧ t.quarter.getD j 0 ≤ t.quarter.getLastD 0 := by
    intro j hj
    constructor
    · exact le_trans hq0 (entries_mono t.quarter hmono 0 j (by omega) hj)
    · rw [getLastD_eq_getD]
      exact entries_mono t.quarter hmono j (t.quarter.length - 1) (by omega)
        (by omega)
  have hf0 : 0 ≤ fracPart x_turn := by
    unfold fracPart
    have := Int.floor_le x_turn
    linarith
  have hf1 : fracPart x_turn < 1 := by
    unfold fracPart
    have := Int.lt_floor_add_one x_turn
    linarith
  have harg0 : 0 ≤ fracPart x_turn * (t.N : ℚ) := by
    have : (0 : ℚ) < (t.N : ℚ) := by exact_mod_cast hN
    positivity
  have harg1 : fracPart x_turn * (t.N : ℚ) < (t.N : ℚ) := by
    have hNQ : (0 : ℚ) < (t.N : ℚ) := by exact_mod_cast hN
    nlinarith
  have hev : evalTurn t x_turn = evalUAt t (fracPart x_turn * (t.N : ℚ)) := by
    unfold evalTurn
    exact evalU_eq_evalUAt t hN _ harg0 harg1
  have hb := evalUAt_bounds t hN hN4 hlen hent _ harg0 harg1
  rw [← hev] at hb
  have hpeakI : 0 ≤ t.quarter.getLastD 0 := by
    rw [getLastD_eq_getD]
    exact (hent (t.quarter.length - 1) (by omega)).1
  have hpeakQ : (0 : ℚ) ≤ ((t.quarter.getLastD 0 : Int) : ℚ) := by
    exact_mod_cast hpeakI
  refine ⟨rfl, ?_, ?_⟩
  · unfold evalNormalizedTurn
    rcases eq_or_lt_of_le hpeakQ with hp | hp
    · rw [← hp, div_zero]
      norm_num
    · rw [le_div_iff hp]
      linarith [hb.1]
  · unfold evalNormalizedTurn
    rcases eq_or_lt_of_le hpeakQ with hp | hp
    · rw [← hp, div_zero]
      norm_num
    · rw [div_le_one hp]
      exact hb.2

/-- Witness for C5 at the shipped reform SINE_TAB_QUARTER (N = 28) and phase 5/7. -/
theorem c5_witness :
    (0 < (28:Int) ∧ pymod 28 4 = 0 ∧
      ((([0, 228, 444, 638, 801, 923, 998, 1024] : List Int).length : Int)
        = pydiv 28 4 + 1)) ∧
      (-1 ≤ evalNormalizedTurn ⟨28, [0, 228, 444, 638, 801, 923, 998, 1024]⟩ (5/7) ∧
        evalNormalizedTurn ⟨28, [0, 228, 444, 638, 801, 923, 998, 1024]⟩ (5/7) ≤ 1) :=
  ⟨by decide,
    (c5_eval_normalized_turn_bounds ⟨28, [0, 228, 444, 638, 801, 923, 998, 1024]⟩
      (by decide) (by decide) (by decide)
      (by
        intro j hj
        have hj7 : j < 7 := by
          simp only [List.length_cons, List.length_nil] at hj
          omega
        interval_cases j <;> decide)
      (by decide) (5/7)).2⟩

/-!
Claim C6: symmetries of eval_turn.  Periodicity and the half-turn
reflection hold for every table; oddness additionally needs the first
quarter entry to be 0 (true of every shipped table), as the counterexample
shows.
-/

/-- The core at 0 is the first quarter entry. -/
lemma evalUCore_zero (t : OddPeriodicTable) (hN : 0 < t.N)
    (hN4 : pymod t.N 4 = 0) :
    evalUCore t 0 = ((t.quarter.getD 0 0 : Int) : ℚ) := by
  have hn4pos : 1 ≤ pydiv t.N 4 := by
    unfold pydiv pymod at *
    omega
  have hNQ : (0 : ℚ) < (t.N : ℚ) := by exact_mod_cast hN
  unfold evalUCore
  dsimp only
  rw [if_neg (show ¬ ((0 : ℚ) > (t.N : ℚ) / 4) by push_neg; linarith)]
  rw [Int.floor_zero]
  rw [if_neg (by omega)]
  norm_num

/-- Mirror symmetry of the core: arguments summing to N/2 agree. -/
lemma evalUCore_mirror (t : OddPeriodicTable) (u1 u1' : ℚ)
    (hsum : u1 + u1' = (t.N : ℚ) / 2) (h1 : 0 ≤ u1) (h2 : 0 ≤ u1') :
    evalUCore t u1 = evalUCore t u1' := by
  have harg : (if u1 > (t.N : ℚ) / 4 then (t.N : ℚ) / 2 - u1 else u1)
      = (if u1' > (t.N : ℚ) / 4 then (t.N : ℚ) / 2 - u1' else u1') := by
    split_ifs with ha hb hb
    · linarith
    · linarith
    · linarith
    · push_neg at ha hb
      linarith
  unfold evalUCore
  dsimp only
  rw [harg]

/-- Odd symmetry of evalUAt about N/2, valid on (0, N) when the first
quarter entry is 0. -/
lemma evalUAt_odd (t : OddPeriodicTable) (hN : 0 < t.N)
    (hN4 : pymod t.N 4 = 0) (hq0 : t.quarter.getD 0 0 = 0)
    (u0 : ℚ) (h0 : 0 < u0) (h1 : u0 < (t.N : ℚ)) :
    evalUAt t ((t.N : ℚ) - u0) = -evalUAt t u0 := by
  have hcoreN2 : evalUCore t ((t.N : ℚ) / 2) = 0 := by
    rw [evalUCore_mirror t ((t.N : ℚ) / 2) 0 (by ring) (by positivity) le_rfl,
      evalUCore_zero t hN hN4, hq0]
    norm_num
  unfold evalUAt
  split_ifs with ha hb hb
  · exfalso
    linarith
  · rw [show (t.N : ℚ) - ((t.N : ℚ) - u0) = u0 by ring]
  · rw [neg_neg]
  · push_neg at ha hb
    have hu0' : (t.N : ℚ) - u0 = (t.N : ℚ) / 2 := by linarith
    have hu0 : u0 = (t.N : ℚ) / 2 := by linarith
    rw [hu0', hu0, hcoreN2]
    norm_num

lemma fracPart_eq_self {y : ℚ} (h0 : 0 ≤ y) (h1 : y < 1) : fracPart y = y := by
  unfold fracPart
  have hz : ⌊y⌋ = 0 := Int.floor_eq_zero_iff.mpr (Set.mem_Ico.mpr ⟨h0, h1⟩)
  rw [hz]
  norm_num

lemma fracPart_sub_int (y : ℚ) (m : ℤ) : fracPart (y - (m : ℚ)) = fracPart y := by
  unfold fracPart
  rw [Int.floor_sub_int]
  push_cast
  ring

/-- C6 (amended): for every valid table whose first quarter entry is 0 (as
in every shipped table), eval_turn is 1-periodic, odd, and symmetric about
the quarter turn: eval_turn(1/2 - x) = eval_turn(x). -/
theorem c6_eval_turn_symmetries (t : OddPeriodicTable)
    (hN : 0 < t.N) (hN4 : pymod t.N 4 = 0)
    (hlen : (t.quarter.length : Int) = pydiv t.N 4 + 1)
    (hq0 : t.quarter.getD 0 0 = 0) (x_turn : ℚ) :
    evalTurn t (x_turn + 1) = evalTurn t x_turn ∧
      evalTurn t (-x_turn) = -evalTurn t x_turn ∧
      evalTurn t (1 / 2 - x_turn) = evalTurn t x_turn := by
  have hNQ : (0 : ℚ) < (t.N : ℚ) := by exact_mod_cast hN
  have hf0 : 0 ≤ fracPart x_turn := by
    have := Int.floor_le x_turn
    unfold fracPart
    linarith
  have hf1 : fracPart x_turn < 1 := by
    have := Int.lt_floor_add_one x_turn
    unfold fracPart
    linarith
  refine ⟨?_, ?_, ?_⟩
  · -- periodicity
    unfold evalTurn
    have : fracPart (x_turn + 1) = fracPart x_turn := by
      unfold fracPart
      rw [Int.floor_add_one]
      push_cast
      ring
    rw [this]
  · -- oddness
    by_cases hfz : fracPart x_turn = 0
    · have hfzneg : fracPart (-x_turn) = 0 := by
        have hx : -x_turn = (0 : ℚ) - ((⌊x_turn⌋ : ℤ) : ℚ) := by
          unfold fracPart at hfz
          linarith
        rw [hx, fracPart_sub_int]
        exact fracPart_eq_self le_rfl one_pos
      unfold evalTurn
      rw [hfz, hfzneg, zero_mul]
      have h00 : evalU t 0 = evalUAt t 0 :=
        evalU_eq_evalUAt t hN 0 le_rfl hNQ
      have hAt0 : evalUAt t 0 = 0 := by
        unfold evalUAt
        rw [if_neg (by push_neg; positivity), evalUCore_zero t hN hN4, hq0]
        norm_num
      rw [h00, hAt0]
      norm_num
    · have hfpos : 0 < fracPart x_turn := lt_of_le_of_ne hf0 (Ne.symm hfz)
      have hfneg : fracPart (-x_turn) = 1 - fracPart x_turn := by
        have hx : -x_turn = (1 - fracPart x_turn) - ((⌊x_turn⌋ + 1 : ℤ) : ℚ) := by
          unfold fracPart
          push_cast
          ring
        rw [hx, fracPart_sub_int]
        exact fracPart_eq_self (by linarith) (by linarith)
      unfold evalTurn
      rw [hfneg]
      have harg : (1 - fracPart x_turn) * (t.N : ℚ)
          = (t.N : ℚ) - fracPart x_turn * (t.N : ℚ) := by ring
      rw [harg]
      have e1 : evalU t ((t.N : ℚ) - fracPart x_turn * (t.N : ℚ))
          = evalUAt t ((t.N : ℚ) - fracPart x_turn * (t.N : ℚ)) := by
        apply evalU_eq_evalUAt t hN
        · nlinarith
        · nlinarith
      have e2 : evalU t (fracPart x_turn * (t.N : ℚ))
          = evalUAt t (fracPart x_turn * (t.N : ℚ)) := by
        apply evalU_eq_evalUAt t hN
        · positivity
        · nlinarith
      rw [e1, e2]
      exact evalUAt_odd t hN hN4 hq0 _ (by positivity) (by nlinarith)
  · -- reflection about the quarter turn
    have hshift : fracPart (1 / 2 - x_turn) = fracPart (1 / 2 - fracPart x_turn) := by
      rw [show (1 : ℚ) / 2 - x_turn
          = (1 / 2 - fracPart x_turn) - ((⌊x_turn⌋ : ℤ) : ℚ) by
        unfold fracPart
        ring]
      rw [fracPart_sub_int]
    unfold evalTurn
    rw [hshift]
    rcases le_or_lt (fracPart x_turn) (1 / 2) with hc | hc
    · have hfr : fracPart (1 / 2 - fracPart x_turn) = 1 / 2 - fracPart x_turn :=
        fracPart_eq_self (by linarith) (by linarith)
      rw [hfr]
      have e1 : evalU t ((1 / 2 - fracPart x_turn) * (t.N : ℚ))
          = evalUAt t ((1 / 2 - fracPart x_turn) * (t.N : ℚ)) := by
        apply evalU_eq_evalUAt t hN
        · nlinarith
        · nlinarith
      have e2 : evalU t (fracPart x_turn * (t.N : ℚ))
          = evalUAt t (fracPart x_turn * (t.N : ℚ)) := by
        apply evalU_eq_evalUAt t hN
        · positivity
        · nlinarith
      rw [e1, e2]
      unfold evalUAt
      rw [if_neg (by push_neg; nlinarith), if_neg (by push_neg; nlinarith)]
      exact evalUCore_mirror t _ _ (by ring) (by nlinarith) (by positivity)
    · have hfr : fracPart (1 / 2 - fracPart x_turn) = 3 / 2 - fracPart x_turn := by
        rw [show (1 : ℚ) / 2 - fracPart x_turn
            = (3 / 2 - fracPart x_turn) - ((1 : ℤ) : ℚ) by push_cast; ring]
        rw [fracPart_sub_int]
        exact fracPart_eq_self (by linarith) (by linarith)
      rw [hfr]
      have e1 : evalU t ((3 / 2 - fracPart x_turn) * (t.N : ℚ))
          = evalUAt t ((3 / 2 - fracPart x_turn) * (t.N : ℚ)) := by
        apply evalU_eq_evalUAt t hN
        · nlinarith
        · nlinarith
      have e2 : evalU t (fracPart x_turn * (t.N : ℚ))
          = evalUAt t (fracPart x_turn * (t.N : ℚ)) := by
        apply evalU_eq_evalUAt t hN
        · positivity
        · nlinarith
      rw [e1, e2]
      unfold evalUAt
      rw [if_pos (by nlinarith), if_pos (by nlinarith)]
      congr 1
      exact evalUCore_mirror t _ _ (by ring) (by nlinarith) (by nlinarith)

/-- Counterexample for C6 as stated: the table N=4, quarter=(1,2) passes the
__post_init__ validation, yet eval_turn(-0) = 1 differs from
-eval_turn(0) = -1, so the oddness symmetry fails without the (undocumented
in __post_init__) requirement that the first quarter entry be 0. -/
theorem c6_counterexample :
    OddPeriodicTable.validN ⟨4, [1, 2]⟩ ∧
      evalTurn ⟨4, [1, 2]⟩ (-(0 : ℚ)) ≠ -evalTurn ⟨4, [1, 2]⟩ 0 := by
  constructor
  · decide
  · norm_num [evalTurn, evalU, evalUAt, evalUCore, fracPart, pydiv]

/-- Witness for C6 at the shipped traditional sun table (N=12) and phase 1/3. -/
theorem c6_witness :
    (OddPeriodicTable.validN ⟨12, [0, 6, 10, 11]⟩ ∧
      ([0, 6, 10, 11] : List Int).getD 0 0 = 0) ∧
      (evalTurn ⟨12, [0, 6, 10, 11]⟩ (1 / 3 + 1) = evalTurn ⟨12, [0, 6, 10, 11]⟩ (1 / 3) ∧
        evalTurn ⟨12, [0, 6, 10, 11]⟩ (-(1 / 3)) = -evalTurn ⟨12, [0, 6, 10, 11]⟩ (1 / 3) ∧
        evalTurn ⟨12, [0, 6, 10, 11]⟩ (1 / 2 - 1 / 3) = evalTurn ⟨12, [0, 6, 10, 11]⟩ (1 / 3)) :=
  ⟨by decide,
    c6_eval_turn_symmetries ⟨12, [0, 6, 10, 11]⟩ (by decide) (by decide)
      (by decide) (by decide) (1 / 3)⟩

/-!
Traditional-mode day engine (engines/rational_day.py, RationalDayEngineTrad)
and the civil-month construction shared by RationalDayEngine.civil_month and
CalendarEngine._build_civil_month.
-/

/-- Modelled from the spec: RationalDayEngineTrad.__init__ and
RationalDayEngineNew.__init__ construct OddPeriodicTable(quarter=...) without
the required N argument (a source slip); the __post_init__ check
len(quarter) == N//4 + 1 and the spec (N=28 for the moon table, N=12 for the
sun table) determine N = 4*(len(quarter) - 1) uniquely. -/
def mkTableFromQuarter (q : List Int) : OddPeriodicTable :=
  ⟨4 * ((q.length : Int) - 1), q⟩

/-- Traditional day-layer parameters (RationalDayParamsTrad). -/
structure RationalDayParamsTrad where
  m0 : ℚ
  m1 : ℚ
  m2 : ℚ
  s0 : ℚ
  s1 : ℚ
  s2 : ℚ
  a0 : ℚ
  a1 : ℚ
  a2 : ℚ
  moon_tab_quarter : List Int
  sun_tab_quarter : List Int

/-- PhaseDN.eval: theta(d, n) = c0 + n*c1 + d*c2 in turns, reduced mod 1. -/
def phaseDNEval (c0 c1 c2 : ℚ) (d n : Int) : ℚ :=
  fracPart (c0 + (n : ℚ) * c1 + (d : ℚ) * c2)

/-- RationalDayEngineTrad.true_date via its AffineTabSeriesDN: mean date plus
(1/60) moon-table term minus (1/60) sun-table term, with the sun anomaly
phase shifted by -1/4 turn as in __init__. -/
def trueDateTrad (p : RationalDayParamsTrad) (d n : Int) : ℚ :=
  (p.m0 + (n : ℚ) * p.m1 + (d : ℚ) * p.m2)
    + (1 / 60) * evalTurn (mkTableFromQuarter p.moon_tab_quarter)
        (phaseDNEval p.a0 p.a1 p.a2 d n)
    + (-(1 / 60)) * evalTurn (mkTableFromQuarter p.sun_tab_quarter)
        (phaseDNEval (p.s0 - 1 / 4) p.s1 p.s2 d n)

/-- RationalDayEngineTrad.end_jd: floor of the true date. -/
def endJdTrad (p : RationalDayParamsTrad) (d n : Int) : Int :=
  ⌊trueDateTrad p d n⌋

/-- CivilDay record from engines/rational_day.py. -/
structure CivilDay where
  jd : Int
  label : Int
  repeated : Bool
  skipped : Bool
deriving Repr, DecidableEq

/-- The tithi indices 1..30 walked by _month_end_hits. -/
def tithiRange : List Int := (List.range 30).map (fun k : ℕ => (k : Int) + 1)

/-- RationalDayEngine._month_end_hits at a given civil day jd: the ascending
list of tithis of lunation n ending on jd (dict-of-lists by key). -/
def monthEndHits (endJd : Int → Int → Int) (n jd : Int) : List Int :=
  tithiRange.filter (fun d => endJd d n = jd)

/-- RationalDayEngine.month_bounds_jd: (first_jd, last_jd) of lunation n. -/
def monthBoundsJd (endJd : Int → Int → Int) (n : Int) : Int × Int :=
  (endJd 30 (n - 1) + 1, endJd 30 n)

/-- The per-civil-day loop of civil_month, walking jds with the running
previous label. -/
def civilWalk (hits : Int → List Int) (jd : Int) (len : ℕ) (prev : Option Int) :
    List CivilDay :=
  match len with
  | 0 => []
  | Nat.succ len' =>
    let ended := hits jd
    if ended.isEmpty then
      match prev with
      | none => ⟨jd, 1, false, false⟩ :: civilWalk hits (jd + 1) len' (some 1)
      | some p => ⟨jd, p, true, false⟩ :: civilWalk hits (jd + 1) len' (some p)
    else
      let label := ended.getLastD 0
      ⟨jd, label, false, decide (2 ≤ ended.length)⟩ ::
        civilWalk hits (jd + 1) len' (some label)

/-- RationalDayEngine.civil_month: walk the civil days from first_jd to
last_jd assigning tithi labels (with repeats and skips), the method's
self.end_jd passed as a parameter. -/
def civilMonth (endJd : Int → Int → Int) (n : Int) : List CivilDay :=
  let fl := monthBoundsJd endJd n
  civilWalk (monthEndHits endJd n) fl.1 (fl.2 + 1 - fl.1).toNat none

/-- Contiguous integer range starting at a with len entries (helper). -/
def intRange (a : Int) : ℕ → List Int
  | 0 => []
  | Nat.succ len => a :: intRange (a + 1) len

/-!
Claim C8: structure of the civil-month map.
-/

lemma civilWalk_length (h : Int → List Int) :
    ∀ (len : ℕ) (jd : Int) (prev : Option Int),
      (civilWalk h jd len prev).length = len := by
  intro len
  induction len with
  | zero => intro jd prev; rfl
  | succ k ih =>
    intro jd prev
    simp only [civilWalk]
    by_cases he : (h jd).isEmpty
    · rw [if_pos he]
      cases prev <;> simp [ih]
    · rw [if_neg he]
      simp [ih]

lemma civilWalk_jds (h : Int → List Int) :
    ∀ (len : ℕ) (jd : Int) (prev : Option Int),
      (civilWalk h jd len prev).map (fun c => c.jd) = intRange jd len := by
  intro len
  induction len with
  | zero => intro jd prev; rfl
  | succ k ih =>
    intro jd prev
    simp only [civilWalk, intRange]
    by_cases he : (h jd).isEmpty
    · rw [if_pos he]
      cases prev <;> simp [ih]
    · rw [if_neg he]
      simp [ih]

lemma getLastD_mem (l : List Int) (d : Int) (hne : l.isEmpty = false) :
    l.getLastD d ∈ l := by
  rw [getLastD_eq_getD]
  cases l with
  | nil => simp at hne
  | cons a m =>
    have hlt : (a :: m).length - 1 < (a :: m).length := by
      simp [List.length_cons]
    rw [List.getD_eq_getElem (a :: m) d hlt]
    exact List.getElem_mem _

lemma monthEndHits_mem {e : Int → Int → Int} {n jd d : Int}
    (hd : d ∈ monthEndHits e n jd) : (1 ≤ d ∧ d ≤ 30) ∧ e d n = jd := by
  unfold monthEndHits tithiRange at hd
  obtain ⟨hmem, hpred⟩ := List.mem_filter.mp hd
  refine ⟨?_, by simpa using hpred⟩
  obtain ⟨k, hk, rfl⟩ := List.mem_map.mp hmem
  have := List.mem_range.mp hk
  omega

/-- Full monotonicity of the tithi-end map on 1..30 from adjacent steps. -/
lemma endJd_mono_of_adjacent (e : Int → Int → Int) (n : Int)
    (H2 : ∀ d : ℕ, d < 29 → e ((d : Int) + 1) n ≤ e ((d : Int) + 2) n) :
    ∀ a b : Int, 1 ≤ a → a ≤ b → b ≤ 30 → e a n ≤ e b n := by
  have step : ∀ (k : ℕ) (a : Int), 1 ≤ a → a + (k : Int) ≤ 30 →
      e a n ≤ e (a + (k : Int)) n := by
    intro k
    induction k with
    | zero => intro a _ _; simp
    | succ m ih =>
      intro a h1 h2
      have hcast : ((m : Int) + 1) = ((m + 1 : ℕ) : Int) := by push_cast; ring
      have hstep : e (a + (m : Int)) n ≤ e (a + (m : Int) + 1) n := by
        have hd : (((a + (m : Int) - 1).toNat : ℕ) : Int) = a + (m : Int) - 1 := by
          omega
        have h' := H2 (a + (m : Int) - 1).toNat (by omega)
        rw [hd] at h'
        rw [show a + (m : Int) - 1 + 1 = a + (m : Int) by ring,
          show a + (m : Int) - 1 + 2 = a + (m : Int) + 1 by ring] at h'
        exact h'
      have hih := ih a h1 (by push_cast at h2 ⊢; omega)
      calc e a n ≤ e (a + (m : Int)) n := hih
        _ ≤ e (a + (m : Int) + 1) n := hstep
        _ = e (a + ((m + 1 : ℕ) : Int)) n := by push_cast; ring_nf
  intro a b h1 hab h30
  have hb : b = a + (((b - a).toNat : ℕ) : Int) := by omega
  rw [hb]
  exact step (b - a).toNat a h1 (by omega)

lemma monthEndHits_mono (e : Int → Int → Int) (n : Int)
    (H2 : ∀ d : ℕ, d < 29 → e ((d : Int) + 1) n ≤ e ((d : Int) + 2) n) :
    ∀ jd1 jd2 d1 d2, jd1 < jd2 → d1 ∈ monthEndHits e n jd1 →
      d2 ∈ monthEndHits e n jd2 → d1 ≤ d2 := by
  intro jd1 jd2 d1 d2 hlt h1 h2
  obtain ⟨⟨hd1a, hd1b⟩, he1⟩ := monthEndHits_mem h1
  obtain ⟨⟨hd2a, hd2b⟩, he2⟩ := monthEndHits_mem h2
  by_contra hcon
  push_neg at hcon
  have := endJd_mono_of_adjacent e n H2 d2 d1 hd2a (by omega) hd1b
  omega

lemma civilWalk_label_lb (h : Int → List Int)
    (MONO : ∀ jd1 jd2 d1 d2, jd1 < jd2 → d1 ∈ h jd1 → d2 ∈ h jd2 → d1 ≤ d2) :
    ∀ (len : ℕ) (jd p : Int),
      (∀ jd' d, jd ≤ jd' → d ∈ h jd' → p ≤ d) →
      ∀ c ∈ civilWalk h jd len (some p), p ≤ c.label := by
  intro len
  induction len with
  | zero => intro jd p _ c hc; simp [civilWalk] at hc
  | succ k ih =>
    intro jd p hUB c hc
    simp only [civilWalk] at hc
    by_cases he : (h jd).isEmpty
    · rw [if_pos he] at hc
      rcases List.mem_cons.mp hc with rfl | hc'
      · exact le_refl _
      · exact ih (jd + 1) p (fun jd' d hge hd => hUB jd' d (by omega) hd) c hc'
    · rw [if_neg he] at hc
      have hlabmem : (h jd).getLastD 0 ∈ h jd :=
        getLastD_mem _ _ (by simpa using he)
      have hplab : p ≤ (h jd).getLastD 0 := hUB jd _ le_rfl hlabmem
      rcases List.mem_cons.mp hc with rfl | hc'
      · exact hplab
      · have := ih (jd + 1) ((h jd).getLastD 0)
          (fun jd' d hge hd => MONO jd jd' _ d (by omega) hlabmem hd) c hc'
        omega

lemma civilWalk_pairwise (h : Int → List Int)
    (MONO : ∀ jd1 jd2 d1 d2, jd1 < jd2 → d1 ∈ h jd1 → d2 ∈ h jd2 → d1 ≤ d2)
    (RANGE1 : ∀ jd d, d ∈ h jd → 1 ≤ d) :
    ∀ (len : ℕ) (jd : Int) (prev : Option Int),
      (∀ p, prev = some p → ∀ jd' d, jd ≤ jd' → d ∈ h jd' → p ≤ d) →
      List.Pairwise (fun c c' => c.label ≤ c'.label)
        (civilWalk h jd len prev) := by
  intro len
  induction len with
  | zero => intro jd prev _; simp [civilWalk]
  | succ k ih =>
    intro jd prev hINV
    simp only [civilWalk]
    by_cases he : (h jd).isEmpty
    · rw [if_pos he]
      cases prev with
      | none =>
        refine List.Pairwise.cons ?_ (ih (jd + 1) (some 1) ?_)
        · intro c hc
          exact civilWalk_label_lb h MONO k (jd + 1) 1
            (fun jd' d _ hd => RANGE1 jd' d hd) c hc
        · rintro p hp jd' d hge hd
          have hp1 : p = 1 := by injection hp with hp; omega
          subst hp1
          exact RANGE1 jd' d hd
      | some p =>
        refine List.Pairwise.cons ?_ (ih (jd + 1) (some p) ?_)
        · intro c hc
          exact civilWalk_label_lb h MONO k (jd + 1) p
            (fun jd' d hge hd => hINV p rfl jd' d (by omega) hd) c hc
        · rintro q hq jd' d hge hd
          injection hq with hq
          subst hq
          exact hINV p rfl jd' d (by omega) hd
    · rw [if_neg he]
      have hlabmem : (h jd).getLastD 0 ∈ h jd :=
        getLastD_mem _ _ (by simpa using he)
      refine List.Pairwise.cons ?_ (ih (jd + 1) (some ((h jd).getLastD 0)) ?_)
      · intro c hc
        exact civilWalk_label_lb h MONO k (jd + 1) ((h jd).getLastD 0)
          (fun jd' d hge hd => MONO jd jd' _ d (by omega) hlabmem hd) c hc
      · rintro q hq jd' d hge hd
        have hq1 : q = (h jd).getLastD 0 := by injection hq with hq; omega
        subst hq1
        exact MONO jd jd' _ d (by omega) hlabmem hd

lemma civilWalk_label_range (h : Int → List Int)
    (RANGE : ∀ jd d, d ∈ h jd → 1 ≤ d ∧ d ≤ 30) :
    ∀ (len : ℕ) (jd : Int) (prev : Option Int),
      (∀ p, prev = some p → 1 ≤ p ∧ p ≤ 30) →
      ∀ c ∈ civilWalk h jd len prev, 1 ≤ c.label ∧ c.label ≤ 30 := by
  intro len
  induction len with
  | zero => intro jd prev _ c hc; simp [civilWalk] at hc
  | succ k ih =>
    intro jd prev hprev c hc
    simp only [civilWalk] at hc
    by_cases he : (h jd).isEmpty
    · rw [if_pos he] at hc
      cases prev with
      | none =>
        rcases List.mem_cons.mp hc with rfl | hc'
        · constructor <;> norm_num
        · refine ih (jd + 1) (some 1) ?_ c hc'
          rintro p hp
          injection hp with hp
          omega
      | some p =>
        rcases List.mem_cons.mp hc with rfl | hc'
        · exact hprev p rfl
        · refine ih (jd + 1) (some p) ?_ c hc'
          rintro q hq
          injection hq with hq
          have := hprev p rfl
          omega
    · rw [if_neg he] at hc
      have hlabmem : (h jd).getLastD 0 ∈ h jd :=
        getLastD_mem _ _ (by simpa using he)
      have hlab := RANGE jd _ hlabmem
      rcases List.mem_cons.mp hc with rfl | hc'
      · exact hlab
      · refine ih (jd + 1) (some ((h jd).getLastD 0)) ?_ c hc'
        rintro q hq
        injection hq with hq
        omega

/-- C8 (amended): for every tithi-end map and lunation n whose month length
is 29 or 30 days and whose tithi ends are weakly monotone (as in the shipped
engines), the civil month has exactly 29 or 30 entries, its civil days are
contiguous from first_jd to last_jd, and its labels are weakly monotone
within 1..30. -/
theorem c8_civil_month_structure (endJd : Int → Int → Int) (n : Int)
    (H1 : endJd 30 n - endJd 30 (n - 1) = 29 ∨
      endJd 30 n - endJd 30 (n - 1) = 30)
    (H2 : ∀ d : ℕ, d < 29 → endJd ((d : Int) + 1) n ≤ endJd ((d : Int) + 2) n)
    (H3 : endJd 30 (n - 1) < endJd 1 n) :
    ((civilMonth endJd n).length = 29 ∨ (civilMonth endJd n).length = 30) ∧
      (civilMonth endJd n).map (fun c => c.jd)
        = intRange (endJd 30 (n - 1) + 1)
            (endJd 30 n + 1 - (endJd 30 (n - 1) + 1)).toNat ∧
      List.Pairwise (fun c c' => c.label ≤ c'.label) (civilMonth endJd n) ∧
      ∀ c ∈ civilMonth endJd n, 1 ≤ c.label ∧ c.label ≤ 30 := by
  have hMONO := monthEndHits_mono endJd n H2
  refine ⟨?_, ?_, ?_, ?_⟩
  · unfold civilMonth monthBoundsJd
    rw [civilWalk_length]
    omega
  · unfold civilMonth monthBoundsJd
    rw [civilWalk_jds]
  · unfold civilMonth monthBoundsJd
    exact civilWalk_pairwise (monthEndHits endJd n) hMONO
      (fun jd d hd => (monthEndHits_mem hd).1.1) _ _ none (by rintro p hp; cases hp)
  · unfold civilMonth monthBoundsJd
    exact civilWalk_label_range (monthEndHits endJd n)
      (fun jd d hd => (monthEndHits_mem hd).1) _ _ none (by rintro p hp; cases hp)

/-- Zero quarter tables (length 8 and 4) used to build degenerate engines. -/
def zeroMoonQuarter : List Int := [0, 0, 0, 0, 0, 0, 0, 0]

/-- Zero sun quarter table of length 4. -/
def zeroSunQuarter : List Int := [0, 0, 0, 0]

/-- Day parameters with mean month length 1/2 day: a syntactically valid
RationalDayParamsTrad on which the civil-month invariant fails. -/
def shortMonthDayParams : RationalDayParamsTrad :=
  ⟨1/4, 1/2, 1/60, 0, 0, 0, 0, 0, 0, zeroMoonQuarter, zeroSunQuarter⟩

/-- For a table whose quarter entries are all 0, eval_turn is identically 0. -/
lemma evalTurn_zero_of_zero_quarter (t : OddPeriodicTable)
    (hN : 0 < t.N) (hN4 : pymod t.N 4 = 0)
    (hlen : (t.quarter.length : Int) = pydiv t.N 4 + 1)
    (hzero : ∀ j : ℕ, j < t.quarter.length → t.quarter.getD j 0 = 0)
    (x_turn : ℚ) : evalTurn t x_turn = 0 := by
  have hlenpos : 1 ≤ t.quarter.length := by
    unfold pydiv pymod at *
    omega
  have hpeak : t.quarter.getLastD 0 = 0 := by
    rw [getLastD_eq_getD]
    exact hzero _ (by omega)
  have hent : ∀ j : ℕ, j < t.quarter.length →
      0 ≤ t.quarter.getD j 0 ∧ t.quarter.getD j 0 ≤ t.quarter.getLastD 0 := by
    intro j hj
    rw [hzero j hj, hpeak]
    exact ⟨le_refl 0, le_refl 0⟩
  have hf0 : 0 ≤ fracPart x_turn := by
    have := Int.floor_le x_turn
    unfold fracPart
    linarith
  have hf1 : fracPart x_turn < 1 := by
    have := Int.lt_floor_add_one x_turn
    unfold fracPart
    linarith
  have hNQ : (0 : ℚ) < (t.N : ℚ) := by exact_mod_cast hN
  have harg0 : 0 ≤ fracPart x_turn * (t.N : ℚ) := by positivity
  have harg1 : fracPart x_turn * (t.N : ℚ) < (t.N : ℚ) := by nlinarith
  have hb := evalUAt_bounds t hN hN4 hlen hent _ harg0 harg1
  rw [hpeak] at hb
  unfold evalTurn
  rw [evalU_eq_evalUAt t hN _ harg0 harg1]
  have h1 := hb.1
  have h2 := hb.2
  norm_num at h1 h2
  linarith

/-- Counterexample for C8 as stated: for the day parameters with mean month
length 1/2 (tables all zero), the civil-day map of lunation 0 is empty, not
29 or 30 entries; the invariant is a property of the shipped parameter
values, not of civil_month for every engine. -/
theorem c8_counterexample :
    ¬ ((civilMonth (endJdTrad shortMonthDayParams) 0).length = 29 ∨
      (civilMonth (endJdTrad shortMonthDayParams) 0).length = 30) := by
  have hmz : ∀ θ : ℚ, evalTurn (mkTableFromQuarter zeroMoonQuarter) θ = 0 := by
    intro θ
    apply evalTurn_zero_of_zero_quarter
    · decide
    · decide
    · decide
    · decide
  have hsz : ∀ θ : ℚ, evalTurn (mkTableFromQuarter zeroSunQuarter) θ = 0 := by
    intro θ
    apply evalTurn_zero_of_zero_quarter
    · decide
    · decide
    · decide
    · decide
  have h1 : endJdTrad shortMonthDayParams 30 (-1) = 0 := by
    unfold endJdTrad trueDateTrad shortMonthDayParams
    rw [hmz, hsz]
    norm_num
  have h2 : endJdTrad shortMonthDayParams 30 0 = 0 := by
    unfold endJdTrad trueDateTrad shortMonthDayParams
    rw [hmz, hsz]
    norm_num
  have hlen : (civilMonth (endJdTrad shortMonthDayParams) 0).length = 0 := by
    unfold civilMonth monthBoundsJd
    dsimp only
    rw [civilWalk_length, show (0 : Int) - 1 = -1 from rfl, h1, h2]
    rfl
  omega

/-- Witness for C8 at a uniform 30-day tithi-end map and lunation 0. -/
theorem c8_witness :
    (((fun (d n : Int) => 30 * n + d) 30 0
        - (fun (d n : Int) => 30 * n + d) 30 (0 - 1) = 30) ∧
      (fun (d n : Int) => 30 * n + d) 30 (0 - 1)
        < (fun (d n : Int) => 30 * n + d) 1 0) ∧
      ((civilMonth (fun d n => 30 * n + d) 0).length = 29 ∨
        (civilMonth (fun d n => 30 * n + d) 0).length = 30) :=
  ⟨by norm_num,
    (c8_civil_month_structure (fun d n => 30 * n + d) 0
      (by norm_num)
      (by
        intro d _
        show 30 * 0 + ((d : Int) + 1) ≤ 30 * 0 + ((d : Int) + 2)
        omega)
      (by norm_num)).1⟩

/-!
Claim C9: which labels make to_gregorian fail with an invalid-label error.
-/

deriving instance DecidableEq for Except

/-- TibetanDate label fields from core/types.py (the engine id, irrelevant to
resolution, is omitted). -/
structure TibetanDate where
  tib_year : Int
  month_no : Int
  is_leap_month : Bool
  tithi : Int
  occ : Int
deriving Repr, DecidableEq

/-- datetime's proleptic-Gregorian leap-year test. -/
def isPyLeapYear (y : Int) : Bool :=
  y % 4 == 0 && (y % 100 != 0 || y % 400 == 0)

/-- datetime: number of days in a month (total in m; date() only consults it
for m in 1..12). -/
def daysInMonth (y m : Int) : Int :=
  if m = 2 then (if isPyLeapYear y then 29 else 28)
  else if m = 4 ∨ m = 6 ∨ m = 9 ∨ m = 11 then 30
  else 31

/-- datetime.date(year, month, day): validates MINYEAR = 1 <= year <=
9999 = MAXYEAR, 1 <= month <= 12 and 1 <= day <= days in that month,
raising ValueError otherwise. -/
def dateCtor (y m d : Int) : Except String (Int × Int × Int) :=
  if 1 ≤ y ∧ y ≤ 9999 ∧ 1 ≤ m ∧ m ≤ 12 ∧ 1 ≤ d ∧ d ≤ daysInMonth y m then
    .ok (y, m, d)
  else .error "ValueError: date value out of range"

/-- core/time.py from_jdn: Fliegel-Van Flandern Gregorian date from JDN,
ending in the date(year, month, day) construction, which raises ValueError
for years outside datetime's range 1..9999. -/
def fromJdn (jdn : Int) : Except String (Int × Int × Int) :=
  let a := jdn + 32044
  let b := pydiv (4 * a + 3) 146097
  let c := a - pydiv (146097 * b) 4
  let d := pydiv (4 * c + 3) 1461
  let e := c - pydiv (1461 * d) 4
  let m := pydiv (5 * e + 2) 153
  let day := e - pydiv (153 * m + 2) 5 + 1
  let month := m + 3 - 12 * pydiv m 10
  let year := 100 * b + d - 4800 + pydiv m 10
  dateCtor year month day

/-- The final list comprehension of to_gregorian, [from_jdn(j) for j in jds]:
from_jdn is applied left to right and its first ValueError propagates. -/
def mapFromJdn : List Int → Except String (List (Int × Int × Int))
  | [] => .ok []
  | j :: rest =>
    match fromJdn j with
    | .error e => .error e
    | .ok g =>
      match mapFromJdn rest with
      | .error e => .error e
      | .ok gs => .ok (g :: gs)

/-- The civil days to_gregorian selects for label t once the lunation n is
resolved: the civil month's days carrying tithi t.tithi, sliced by policy.
Python's negative-slice corner (occ < 0) is not reproduced; no caller
constructs occ < 1. -/
def selectedJds (endJd : Int → Int → Int) (t : TibetanDate) (policy : String)
    (n : Int) : List Int :=
  let cm := civilMonth endJd n
  let jds := (cm.filter (fun cd => cd.label = t.tithi)).map (fun cd => cd.jd)
  if policy = "occ" then
    if 0 ≤ t.occ - 1 then (jds.drop (t.occ - 1).toNat).take 1 else []
  else if policy = "first" then jds.take 1
  else if policy = "second" then (jds.drop 1).take 1
  else jds

/-- RationalEngine.to_gregorian: resolve a Tibetan label to civil dates.
The month engine state is the parameter record p and the day engine state is
its tithi-end map endJd. -/
def toGregorian (p : RationalMonthParams) (endJd : Int → Int → Int)
    (t : TibetanDate) (policy : String) :
    Except String (List (Int × Int × Int)) :=
  if policy ≠ "all" ∧ policy ≠ "occ" ∧ policy ≠ "first" ∧
      policy ≠ "second" ∧ policy ≠ "raise" then
    .error "policy must be one of: all, occ, first, second, raise"
  else
    match true_month p t.tib_year t.month_no t.is_leap_month with
    | .error e => .error e
    | .ok n =>
      if policy = "raise" ∧ (selectedJds endJd t policy n).length ≠ 1 then
        .error "Expected exactly one match"
      else mapFromJdn (selectedJds endJd t policy n)

/-- true_month fails exactly when the leap instance of a non-trigger label is
requested. -/
lemma true_month_isOk_iff (p : RationalMonthParams) (Y M : Int) (L : Bool) :
    (true_month p Y M L).isOk = false ↔
      (L = true ∧ is_trigger_label p Y M = false) := by
  unfold true_month
  by_cases htr : is_trigger_label p Y M
  · rw [if_neg (by simp [htr])]
    split_ifs <;> simp [Except.isOk, Except.toBool, htr]
  · rw [if_pos (by simp [htr])]
    cases L <;> simp [Except.isOk, Except.toBool, htr]

/-- The comprehension succeeds exactly when every selected civil day's
Gregorian date is representable. -/
lemma mapFromJdn_isOk (l : List Int) :
    (mapFromJdn l).isOk = l.all (fun j => (fromJdn j).isOk) := by
  induction l with
  | nil => rfl
  | cons j rest ih =>
    simp only [mapFromJdn, List.all_cons]
    cases hj : fromJdn j with
    | error e =>
      simp [Except.isOk, Except.toBool]
    | ok g =>
      cases hr : mapFromJdn rest with
      | error e =>
        rw [hr] at ih
        simpa [Except.isOk, Except.toBool] using ih
      | ok gs =>
        rw [hr] at ih
        simpa [Except.isOk, Except.toBool] using ih

/-- C9 (amended): for the non-raise policies, to_gregorian fails exactly when
the caller requests the leap instance of a non-trigger label, or when a
selected civil day's Gregorian date falls outside datetime's years 1..9999
(a date-range ValueError from from_jdn, not a label rejection); out-of-range
month_no is arithmetized through mstar rather than rejected, and an
out-of-range tithi yields an empty match list, not an error. -/
theorem c9_invalid_label_errors (p : RationalMonthParams)
    (endJd : Int → Int → Int) (t : TibetanDate) (policy : String)
    (hpol : policy = "all" ∨ policy = "occ" ∨ policy = "first" ∨
      policy = "second") :
    (toGregorian p endJd t policy).isOk = false ↔
      ((t.is_leap_month = true ∧
          is_trigger_label p t.tib_year t.month_no = false) ∨
        (∃ n, true_month p t.tib_year t.month_no t.is_leap_month =
            Except.ok n ∧
          (selectedJds endJd t policy n).all
            (fun j => (fromJdn j).isOk) = false)) := by
  have hne : ¬ (policy ≠ "all" ∧ policy ≠ "occ" ∧ policy ≠ "first" ∧
      policy ≠ "second" ∧ policy ≠ "raise") := by
    rcases hpol with hp | hp | hp | hp <;> subst hp <;> simp
  have hnr : policy ≠ "raise" := by
    rcases hpol with hp | hp | hp | hp <;> subst hp <;> simp
  unfold toGregorian
  rw [if_neg hne]
  cases hres : true_month p t.tib_year t.month_no t.is_leap_month with
  | error e =>
    simp only
    constructor
    · intro _
      left
      have : (true_month p t.tib_year t.month_no t.is_leap_month).isOk = false := by
        rw [hres]; rfl
      exact (true_month_isOk_iff p _ _ _).mp this
    · intro _; rfl
  | ok n =>
    simp only
    rw [if_neg (by simp [hnr])]
    rw [mapFromJdn_isOk]
    constructor
    · intro hfail
      exact Or.inr ⟨n, rfl, hfail⟩
    · rintro (hrhs | ⟨n', hn', hfail⟩)
      · have := (true_month_isOk_iff p t.tib_year t.month_no t.is_leap_month).mpr hrhs
        rw [hres] at this
        simp [Except.isOk, Except.toBool] at this
      · injection hn' with hn'
        subst hn'
        exact hfail

/-- Synthetic tithi-end map where tithi d of lunation n ends on civil day
2451545 + 30n + d (near J2000, well inside datetime's year range); used to
exercise to_gregorian on concrete labels. -/
def linearEndJd : Int → Int → Int := fun d n => 2451545 + 30 * n + d

/-- Counterexample for C9 as stated: with the Phugpa month parameters, the
label with month_no = 13 resolves without any invalid-label error (it is
arithmetized to month 1 of the following year through mstar, and its civil
date near J2000 constructs fine), and a label with tithi = 31 resolves to
the empty list rather than an error, so out-of-range month or day values
are not rejected by to_gregorian. -/
theorem c9_counterexample :
    (toGregorian phugpaMonthParams linearEndJd ⟨1987, 13, false, 5, 1⟩ "occ").isOk
        = true ∧
      toGregorian phugpaMonthParams linearEndJd ⟨1987, 2, false, 31, 1⟩ "all"
        = Except.ok [] := by
  constructor
  · decide
  · decide

/-- Witness for C9 at the Phugpa month parameters and a regular label. -/
theorem c9_witness :
    ((toGregorian phugpaMonthParams linearEndJd ⟨1987, 2, false, 15, 1⟩ "occ").isOk
        = false ↔
      ((false = true ∧ is_trigger_label phugpaMonthParams 1987 2 = false) ∨
        (∃ n, true_month phugpaMonthParams 1987 2 false = Except.ok n ∧
          (selectedJds linearEndJd ⟨1987, 2, false, 15, 1⟩ "occ" n).all
            (fun j => (fromJdn j).isOk) = false))) :=
  c9_invalid_label_errors phugpaMonthParams linearEndJd ⟨1987, 2, false, 15, 1⟩
    "occ" (Or.inr (Or.inl rfl))

/-!
Claim C7: civil alignment of the rational/reform day engine
(engines/rational_day.py, RationalDayEngineNew).
-/

/-- PhaseT from astro/affine_series.py: theta(t) = c0 + c1*t, reduced mod 1. -/
structure PhaseT where
  c0 : ℚ
  c1 : ℚ
deriving Repr, DecidableEq

/-- PhaseT.eval. -/
def PhaseT.eval (ph : PhaseT) (t : ℚ) : ℚ := fracPart (ph.c0 + ph.c1 * t)

/-- TermDef from astro/affine_series.py: amplitude and phase of one term. -/
structure TermDef where
  amp : ℚ
  phase : PhaseT
deriving Repr, DecidableEq

/-- TabTermT: a term bound to its table-evaluation function. -/
structure TabTermT where
  amp : ℚ
  phase : PhaseT
  table_eval_turn : ℚ → ℚ

/-- AffineTabSeriesT: x(t) = A + B*t + sum of table terms. -/
structure AffineTabSeriesT where
  A : ℚ
  B : ℚ
  terms : List TabTermT

/-- AffineTabSeriesT.base. -/
def AffineTabSeriesT.base (s : AffineTabSeriesT) (t : ℚ) : ℚ := s.A + s.B * t

/-- Correction sum C(t) of the series terms. -/
def AffineTabSeriesT.corr (s : AffineTabSeriesT) (t : ℚ) : ℚ :=
  s.terms.foldl (fun acc term =>
    acc + term.amp * term.table_eval_turn (term.phase.eval t)) 0

/-- AffineTabSeriesT.eval: base plus term sum (the source accumulates onto
the base). -/
def AffineTabSeriesT.eval (s : AffineTabSeriesT) (t : ℚ) : ℚ :=
  s.terms.foldl (fun acc term =>
    acc + term.amp * term.table_eval_turn (term.phase.eval t)) (s.base t)

/-- The fixed-count Picard loop of picard_solve. -/
def picardIter (s : AffineTabSeriesT) (t0 invB : ℚ) : ℕ → ℚ → ℚ
  | 0, t => t
  | Nat.succ k, t => picardIter s t0 invB k (t0 - s.corr t * invB)

/-- AffineTabSeriesT.picard_solve with t_init=None: errors on a nonpositive
iteration count, else runs the fixed iteration from t0 = (x0 - A)/B. -/
def AffineTabSeriesT.picard_solve (s : AffineTabSeriesT) (x0 : ℚ)
    (iterations : Int) : Except String ℚ :=
  if iterations ≤ 0 then .error "iterations must be positive"
  else
    let t0 := (x0 - s.A) / s.B
    .ok (picardIter s t0 (1 / s.B) iterations.toNat t0)

/-- LocationRational from astro/sunrise.py. -/
structure LocationRational where
  lat_turn : ℚ
  lon_turn : ℚ
  elev_m : ℚ
deriving Repr, DecidableEq

/-- Rational delta-T model definitions from astro/deltat.py. -/
inductive DeltaTRationalDef where
  | constant (value : ℚ)
  | quadratic (a b c y0 : ℚ)
deriving Repr, DecidableEq

/-- Rational sunrise model definitions from astro/sunrise.py. -/
inductive SunriseRationalDef where
  | constant (day_fraction : ℚ)
  | spherical (h0_turn eps_turn : ℚ)
deriving Repr, DecidableEq

/-- New-mode day parameters (RationalDayParamsNew). -/
structure RationalDayParamsNew where
  A_sun : ℚ
  B_sun : ℚ
  solar_terms : List TermDef
  A_moon : ℚ
  B_moon : ℚ
  lunar_terms : List TermDef
  iterations : Int
  delta_t : DeltaTRationalDef
  sunrise : SunriseRationalDef
  location : LocationRational
  moon_tab_quarter : List Int
  sun_tab_quarter : List Int

/-- Sun table built in RationalDayEngineNew.__init__ (period spec-modelled,
see mkTableFromQuarter). -/
def sunTabNew (p : RationalDayParamsNew) : OddPeriodicTable :=
  mkTableFromQuarter p.sun_tab_quarter

/-- Moon table built in RationalDayEngineNew.__init__. -/
def moonTabNew (p : RationalDayParamsNew) : OddPeriodicTable :=
  mkTableFromQuarter p.moon_tab_quarter

/-- The solar longitude series bound in __init__ (terms evaluate the
spec-modelled eval_normalized_turn of the sun table). -/
def solarSeries (p : RationalDayParamsNew) : AffineTabSeriesT :=
  ⟨p.A_sun, p.B_sun,
    p.solar_terms.map (fun t =>
      ⟨t.amp, t.phase, evalNormalizedTurn (sunTabNew p)⟩)⟩

/-- The elongation series bound in __init__: lunar terms plus sign-flipped
solar terms, with A = A_moon - A_sun and B = B_moon - B_sun. -/
def elongSeries (p : RationalDayParamsNew) : AffineTabSeriesT :=
  ⟨p.A_moon - p.A_sun, p.B_moon - p.B_sun,
    p.lunar_terms.map (fun t =>
        ⟨t.amp, t.phase, evalNormalizedTurn (moonTabNew p)⟩)
      ++ p.solar_terms.map (fun t =>
        ⟨-t.amp, t.phase, evalNormalizedTurn (sunTabNew p)⟩)⟩

/-- The delta-T model bound in __init__.  Note the source binds only (a,b,c)
of a quadratic definition, so the model's y0 falls back to the dataclass
default 1820 regardless of the definition's y0 field. -/
def deltaTSeconds (p : RationalDayParamsNew) (t2000 : ℚ) : ℚ :=
  match p.delta_t with
  | .constant v => v
  | .quadratic a b c _y0 =>
    let yd := t2000 / (1461 / 4) + 2000
    let u := (yd - 1820) / 100
    a + u * (b + u * c)

/-- The sunrise model bound in __init__, giving the UTC day fraction of dawn.
Modelled from the spec: the source call passes j_civil as a spurious leading
argument (a slip: the models take (loc, true_sun, mean_sun)); the constant
model returns day_fraction - lon, the spherical model solves the hour-angle
equation with the moon table's spec-modelled normalized lookups. -/
def sunriseUtcFraction (p : RationalDayParamsNew) (loc : LocationRational)
    (true_sun_turn : ℚ) : ℚ :=
  match p.sunrise with
  | .constant f => f - loc.lon_turn
  | .spherical h0 eps =>
    let tab := moonTabNew p
    let sin_eps := evalNormalizedTurn tab eps
    let sin_lambda := evalNormalizedTurn tab true_sun_turn
    let sin_delta := sin_eps * sin_lambda
    let delta_turn := asinNormalizedTurn tab sin_delta
    let cos_delta := evalNormalizedTurn tab (delta_turn + 1 / 4)
    let sin_phi := evalNormalizedTurn tab loc.lat_turn
    let cos_phi := evalNormalizedTurn tab (loc.lat_turn + 1 / 4)
    let sin_h0 := evalNormalizedTurn tab h0
    let num := sin_h0 - sin_phi * sin_delta
    let den := cos_phi * cos_delta
    let cos_H0 := if num ≥ den then (1 : ℚ)
      else if num ≤ -den then (-1 : ℚ)
      else num / den
    let H0 := acosNormalizedTurn tab cos_H0
    let t_rise_utc := 1 / 2 - H0 - loc.lon_turn
    t_rise_utc - (⌊t_rise_utc⌋ : ℚ)

/-- RationalDayEngineNew.boundary_tt: invert the elongation series at
x0/30 turns. -/
def boundaryTT (p : RationalDayParamsNew) (x0 : ℚ) : Except String ℚ :=
  (elongSeries p).picard_solve (x0 / 30) p.iterations

/-- RationalDayEngineNew.boundary_utc. -/
def boundaryUtc (p : RationalDayParamsNew) (x0 : ℚ) : Except String ℚ :=
  (boundaryTT p x0).map (fun t_tt => t_tt - deltaTSeconds p t_tt / 86400)

/-- RationalDayEngineNew.local_true_date: civil JDN plus the fraction of the
day elapsed since that day's exact dawn. -/
def localTrueDate (p : RationalDayParamsNew) (x0 : ℚ) : Except String ℚ :=
  (boundaryUtc p x0).map (fun t_utc =>
    let t_dawn_based := t_utc + p.location.lon_turn + 1 / 4
    let j_civil : Int := ⌊t_dawn_based⌋
    let dawn_utc_approx := (j_civil : ℚ) - 1 / 4 - p.location.lon_turn
    let dt_sec := deltaTSeconds p dawn_utc_approx
    let dawn_tt_approx := dawn_utc_approx + dt_sec / 86400
    let lambda_sun := (solarSeries p).eval dawn_tt_approx
    let dawn_frac_exact := sunriseUtcFraction p p.location lambda_sun
    let dawn_utc_exact := (j_civil : ℚ) - 1 / 2 + dawn_frac_exact
    (j_civil : ℚ) + (t_utc - dawn_utc_exact))

/-- RationalDayEngineNew.end_jd: integer part of the local true date. -/
def endJdNew (p : RationalDayParamsNew) (x0 : ℚ) : Except String Int :=
  (localTrueDate p x0).map (fun td => ⌊td⌋)

/-- C7 (amended): with the constant sunrise model at day fraction 1/4 (the
shipped DAWN_CONSTANT_DEF value 90/360), the integer part of
local_true_date(x) is exactly the seeded civil day floor(t_utc + lon + 1/4)
for every tithi coordinate x.  The counterexample shows this fails for other
sunrise configurations. -/
theorem c7_civil_alignment_constant_dawn (p : RationalDayParamsNew)
    (hsun : p.sunrise = SunriseRationalDef.constant (1 / 4))
    (hiter : 0 < p.iterations) (hB : p.B_moon - p.B_sun ≠ 0) (x0 : ℚ) :
    ∃ t_utc : ℚ, boundaryUtc p x0 = Except.ok t_utc ∧
      ∃ v : ℚ, localTrueDate p x0 = Except.ok v ∧
        ⌊v⌋ = ⌊t_utc + p.location.lon_turn + 1 / 4⌋ := by
  have htt : ∃ t_tt : ℚ, boundaryTT p x0 = Except.ok t_tt := by
    unfold boundaryTT AffineTabSeriesT.picard_solve
    rw [if_neg (by omega)]
    exact ⟨_, rfl⟩
  obtain ⟨t_tt, htt⟩ := htt
  have hbu : boundaryUtc p x0 = Except.ok (t_tt - deltaTSeconds p t_tt / 86400) := by
    unfold boundaryUtc
    rw [htt]
    rfl
  refine ⟨t_tt - deltaTSeconds p t_tt / 86400, hbu, ?_⟩
  unfold localTrueDate
  rw [hbu]
  simp only [Except.map]
  refine ⟨_, rfl, ?_⟩
  dsimp only
  set t_utc := t_tt - deltaTSeconds p t_tt / 86400 with htu
  set j : Int := ⌊t_utc + p.location.lon_turn + 1 / 4⌋ with hj
  have hdawn : ∀ lam : ℚ, sunriseUtcFraction p p.location lam
      = 1 / 4 - p.location.lon_turn := by
    intro lam
    unfold sunriseUtcFraction
    rw [hsun]
  rw [hdawn]
  have harg : (j : ℚ) + (t_utc - ((j : ℚ) - 1 / 2 + (1 / 4 - p.location.lon_turn)))
      = (j : ℚ) + (t_utc + p.location.lon_turn + 1 / 4 - (j : ℚ)) := by
    ring
  rw [harg, Int.floor_int_add]
  have hfl : ⌊t_utc + p.location.lon_turn + 1 / 4 - (j : ℚ)⌋ = 0 := by
    apply Int.floor_eq_zero_iff.mpr
    rw [Set.mem_Ico]
    constructor
    · have := Int.floor_le (t_utc + p.location.lon_turn + 1 / 4)
      rw [← hj] at this
      linarith
    · have := Int.lt_floor_add_one (t_utc + p.location.lon_turn + 1 / 4)
      rw [← hj] at this
      push_cast
      linarith
  omega

/-- Degenerate reform day parameters with elongation series E(t) = t, no
table terms, zero delta-T, observer at longitude 0, and the constant sunrise
model at day fraction 1/2. -/
def halfDawnDayParams : RationalDayParamsNew :=
  ⟨0, 0, [], 0, 1, [], 1, DeltaTRationalDef.constant 0,
    SunriseRationalDef.constant (1 / 2), ⟨0, 0, 0⟩,
    zeroMoonQuarter, zeroSunQuarter⟩

/-- Counterexample for C7 as stated: with the constant sunrise model at day
fraction 1/2 (a value the model type admits), the tithi coordinate x = -6
gives t_utc = -1/5, seeded civil day floor(-1/5 + 1/4) = 0, but
local_true_date = -1/5 whose integer part is -1, not 0: the floor identity
depends on dawn sitting exactly at the 1/4-turn boundary and does not hold
for every sunrise configuration. -/
theorem c7_counterexample :
    boundaryUtc halfDawnDayParams (-6) = Except.ok (-(1 / 5)) ∧
      localTrueDate halfDawnDayParams (-6) = Except.ok (-(1 / 5)) ∧
      (⌊(-(1 / 5) : ℚ)⌋ = -1 ∧
        ⌊(-(1 / 5) : ℚ) + (0 : ℚ) + 1 / 4⌋ = 0 ∧ (-1 : Int) ≠ 0) := by
  have hb : boundaryUtc halfDawnDayParams (-6) = Except.ok (-(1 / 5)) := by
    unfold boundaryUtc boundaryTT AffineTabSeriesT.picard_solve
      halfDawnDayParams elongSeries deltaTSeconds
    norm_num [picardIter, AffineTabSeriesT.corr, Except.map]
  refine ⟨hb, ?_, by norm_num, by norm_num, by norm_num⟩
  unfold localTrueDate
  rw [hb]
  show Except.ok _ = _
  norm_num [sunriseUtcFraction, halfDawnDayParams, deltaTSeconds,
    AffineTabSeriesT.eval, AffineTabSeriesT.base, solarSeries, Except.map]

/-- Degenerate reform day parameters identical to halfDawnDayParams but with
the shipped constant dawn fraction 1/4 (DAWN_CONSTANT_DEF = 90/360). -/
def quarterDawnDayParams : RationalDayParamsNew :=
  ⟨0, 0, [], 0, 1, [], 1, DeltaTRationalDef.constant 0,
    SunriseRationalDef.constant (1 / 4), ⟨0, 0, 0⟩,
    zeroMoonQuarter, zeroSunQuarter⟩

/-- Witness for C7 at the quarter-dawn parameters and tithi coordinate -6. -/
theorem c7_witness :
    (quarterDawnDayParams.sunrise = SunriseRationalDef.constant (1 / 4) ∧
      0 < quarterDawnDayParams.iterations ∧
      quarterDawnDayParams.B_moon - quarterDawnDayParams.B_sun ≠ 0) ∧
      (∃ t_utc : ℚ, boundaryUtc quarterDawnDayParams (-6) = Except.ok t_utc ∧
        ∃ v : ℚ, localTrueDate quarterDawnDayParams (-6) = Except.ok v ∧
          ⌊v⌋ = ⌊t_utc + quarterDawnDayParams.location.lon_turn + 1 / 4⌋) :=
  ⟨⟨rfl, by decide, by norm_num [quarterDawnDayParams]⟩,
    c7_civil_alignment_constant_dawn quarterDawnDayParams rfl (by decide)
      (by norm_num [quarterDawnDayParams]) (-6)⟩

/-!
Claims C1, C2, C10: structural breakage of the shipped construction path.
The Python dataclass field lists and the keyword arguments passed at the
call sites in specs.py and engine constructors are embedded as string lists;
a call succeeds only if every keyword names a declared field (else Python
raises TypeError) and every required field is supplied.
-/

/-- Declared fields of ArithmeticMonthParams (arithmetic_month.py). -/
def arithmeticMonthParamsFields : List String :=
  ["epoch_k", "sgang1", "Y0", "M0", "P", "Q", "beta_star", "tau"]

/-- Keyword arguments that specs.py arith_month passes to
ArithmeticMonthParams. -/
def arithMonthCallKwargs : List String :=
  ["epoch_k", "sgang1_deg", "Y0", "M0", "P", "Q", "beta_star", "tau",
    "m0", "m1", "s0"]

/-- Declared fields of RationalMonthParams (rational_month.py). -/
def rationalMonthParamsFields : List String :=
  ["Y0", "M0", "P", "Q", "beta_star", "tau", "leap_labeling"]

/-- Keyword arguments that specs.py rational_month passes to
RationalMonthParams. -/
def rationalMonthCallKwargs : List String :=
  ["epoch_k", "A_sun", "B_sun", "solar_terms", "A_elong", "B_elong",
    "lunar_terms", "iterations", "moon_tab_quarter", "sun_tab_quarter",
    "Y0", "M0", "sgang1_deg"]

/-- A Python dataclass call accepts the kwargs only if each names a field. -/
def dataclassAcceptsCall (fields kwargs : List String) : Bool :=
  kwargs.all (fun k => fields.contains k)

/-- A dataclass call must also supply every field that has no default. -/
def dataclassCallComplete (required kwargs : List String) : Bool :=
  required.all (fun k => kwargs.contains k)

/-- Engine kinds dispatched by menu.make_engine; every other kind raises. -/
def makeEngineHandledKinds : List String := ["rational", "fp"]

/-- Attributes assigned by RationalDayEngine.__init__ (rational_day.py). -/
def rationalDayEngineAttrs : List String := ["mode", "_trad", "_new"]

/-- Required (defaultless) fields of OddPeriodicTable. -/
def oddPeriodicTableRequiredFields : List String := ["N", "quarter"]

/-- Keyword arguments of the OddPeriodicTable(...) construction calls in
rational_day.py and trad_day.py. -/
def dayEngineTableCtorKwargs : List String := ["quarter"]

/-- ArithmeticMonthParams.__post_init__ in execution order: the four range
checks, then the dereference of self.leap_labeling, an attribute the frozen
dataclass does not declare, which unconditionally raises AttributeError. -/
def arithmeticMonthParamsPostInit (P Q M0 tau : Int) : Except String Unit :=
  if P ≤ 0 ∨ Q ≤ 0 then .error "P,Q must be positive"
  else if ¬ (P < Q) then .error "Require P < Q"
  else if ¬ (1 ≤ M0 ∧ M0 ≤ 12) then .error "M0 must be in 1..12"
  else if ¬ (0 ≤ tau ∧ tau < P) then .error "tau must be in 0..P-1"
  else .error "AttributeError: ArithmeticMonthParams has no field leap_labeling"

/-- C10: every construction of ArithmeticMonthParams raises: arguments that
pass the range checks hit the missing leap_labeling attribute, and in fact
leap_labeling is not among the declared fields; separately, the arith_month
call site in specs.py passes keywords the dataclass does not accept. -/
theorem c10_arithmetic_month_params_always_raises :
    (∀ P Q M0 tau : Int,
        (arithmeticMonthParamsPostInit P Q M0 tau).isOk = false) ∧
      arithmeticMonthParamsFields.contains "leap_labeling" = false ∧
      dataclassAcceptsCall arithmeticMonthParamsFields arithMonthCallKwargs
        = false := by
  refine ⟨?_, by decide, by decide⟩
  intro P Q M0 tau
  unfold arithmeticMonthParamsPostInit
  split_ifs <;> rfl

/-- C2 (code_bug record): the shipped spec constructors cannot materialize:
arith_month and rational_month pass keyword arguments their parameter
dataclasses do not declare (TypeError at import), and make_engine has no
branch for the kind "traditional" carried by the five traditional specs. -/
theorem c2_build_registry_breakage :
    dataclassAcceptsCall arithmeticMonthParamsFields arithMonthCallKwargs
        = false ∧
      dataclassAcceptsCall rationalMonthParamsFields rationalMonthCallKwargs
        = false ∧
      makeEngineHandledKinds.contains "traditional" = false := by
  refine ⟨by decide, by decide, by decide⟩

/-- C1 (code_bug record): the day_info/to_gregorian round trip cannot run:
RationalEngine._find_lunation dereferences self.day.p but RationalDayEngine
assigns no attribute p, and the day engines construct OddPeriodicTable
without its required N field. -/
theorem c1_round_trip_path_breakage :
    rationalDayEngineAttrs.contains "p" = false ∧
      dataclassCallComplete oddPeriodicTableRequiredFields
        dayEngineTableCtorKwargs = false := by
  refine ⟨by decide, by decide⟩

/-- Counterexample for C4 as stated: the record (Y0=0, M0=1, P=1, Q=3,
beta_star=0, tau=0, first_is_leap) passes every __post_init__ range check,
yet decoding lunation 1 and resolving the decoded label back returns
lunation 2, not 1 (the label (0,2) carries three lunations when Q >= 2P). -/
theorem c4_counterexample :
    (RationalMonthParams.valid ⟨0, 1, 1, 3, 0, 0, "first_is_leap"⟩) ∧
      label_from_true_month ⟨0, 1, 1, 3, 0, 0, "first_is_leap"⟩ 1 = (0, 2, true) ∧
      true_month ⟨0, 1, 1, 3, 0, 0, "first_is_leap"⟩ 0 2 true = Except.ok 2 ∧
      (2 : Int) ≠ 1 :=
  ⟨by decide, rfl, rfl, by decide⟩

/-- Witness for C4 at the Phugpa month parameters and lunation 480. -/
theorem c4_witness :
    (0 < (65:Int) ∧ (65:Int) < 67 ∧ (67:Int) < 2 * 65) ∧
      true_month phugpaMonthParams
        (label_from_true_month phugpaMonthParams 480).1
        (label_from_true_month phugpaMonthParams 480).2.1
        (label_from_true_month phugpaMonthParams 480).2.2 = Except.ok 480 :=
  ⟨by norm_num,
    c4_month_inverse_identity phugpaMonthParams (by decide) (by decide)
      (by decide) (Or.inl rfl) 480⟩
